import Mathlib

set_option maxHeartbeats 1000000

/-!
Verification development for the Waybar layout/state reconciliation engine
(Configs/.local/lib/hyde/waybar.py).

The embedding models the filesystem state the engine touches: the state
record file (staterc), the live config file (config.jsonc), the catalog of
layout template files, the style directories, and the list of backups
created.  File contents are plain strings; the SHA-256 content hash used by
the source only ever feeds equality tests, so the digest is modelled as the
content itself (an injective stand-in).  Timestamps in backup names are
abstracted away: a backup is recorded by appending its content to a list.

All string operations are implemented over character lists with structural
recursion so that concrete instances evaluate inside the kernel.
-/

/-- Python str.strip with no argument: drop whitespace from both ends.
Mirrors the strip calls in get_state_value and handle_layout_navigation. -/
def pyStrip (s : String) : String :=
  (((s.toList.dropWhile Char.isWhitespace).reverse.dropWhile Char.isWhitespace).reverse).asString

/-- Characters after the first occurrence of the equals sign, the whole
remainder: Python line.split with maxsplit 1, taking element 1.
Returns the empty string when no equals sign occurs (the source only calls
this on lines that are known to contain one). -/
def afterFirstEqCh : List Char → List Char
  | [] => []
  | c :: cs => if c = '=' then cs else afterFirstEqCh cs

def afterFirstEq (s : String) : String :=
  (afterFirstEqCh s.toList).asString

/-- Python str.startswith. -/
def strStartsWith (s pre : String) : Bool :=
  pre.toList.isPrefixOf s.toList

/-- Python str.endswith. -/
def strEndsWith (s suf : String) : Bool :=
  suf.toList.reverse.isPrefixOf s.toList.reverse

/-- Python s.split with separator the equals sign, element 1: the characters
between the first and the second equals sign.  Mirrors the state-file read in
handle_layout_navigation, which uses split without a maxsplit bound. -/
def secondEqField (s : String) : String :=
  (((s.toList.dropWhile (fun c => ¬ c = '=')).drop 1).takeWhile (fun c => ¬ c = '=')).asString

/-- posixpath basename: the characters after the last slash. -/
def pyBasename (s : String) : String :=
  ((s.toList.reverse.takeWhile (fun c => ¬ c = '/')).reverse).asString

/-- posixpath dirname: everything before the last slash, with trailing
slashes stripped unless the head consists only of slashes. -/
def pyDirname (s : String) : String :=
  let head := (s.toList.reverse.dropWhile (fun c => ¬ c = '/')).reverse
  if head.all (fun c => c = '/') then head.asString
  else ((head.reverse.dropWhile (fun c => c = '/')).reverse).asString

/-- Python str.replace of all occurrences of ".jsonc" by the empty string,
scanning left to right over non-overlapping occurrences. -/
def replJsonc : List Char → List Char
  | '.' :: 'j' :: 's' :: 'o' :: 'n' :: 'c' :: rest => replJsonc rest
  | c :: cs => c :: replJsonc cs
  | [] => []

/-- Derived layout name used throughout the source:
os.path.basename(p).replace(".jsonc", ""). -/
def basenameNoExt (p : String) : String :=
  (replJsonc (pyBasename p).toList).asString

/-- name.split("#")[0]: the characters before the first hash sign. -/
def beforeHash (s : String) : String :=
  (s.toList.takeWhile (fun c => ¬ c = '#')).asString

/-- The content json.dump writes for an empty JSON object, used when the
source creates a missing config.jsonc. -/
def emptyJson : String := "\x7b\x7d"

/-! ## Persisted state store (get_state_value / set_state_value)

The state file is modelled as an optional list of lines (none when the file
does not exist); lines carry no trailing newline. -/

/-- get_state_value: the first line starting with key followed by equals,
taking the remainder after the first equals sign, stripped; the default when
the file is absent or no line matches. -/
def getStateValue (st : Option (List String)) (key : String) (default : Option String) :
    Option String :=
  match st with
  | none => default
  | some ls =>
    match ls.find? (fun l => strStartsWith l (key ++ "=")) with
    | some l => some (pyStrip (afterFirstEq l))
    | none => default

/-- set_state_value: create the file with the single line when absent;
otherwise rewrite every line starting with key followed by equals, appending
the line at the end when none matched. -/
def setStateValue (st : Option (List String)) (key value : String) : List String :=
  match st with
  | none => [key ++ "=" ++ value]
  | some ls =>
    if ls.any (fun l => strStartsWith l (key ++ "=")) then
      ls.map (fun l => if strStartsWith l (key ++ "=") then key ++ "=" ++ value else l)
    else ls ++ [key ++ "=" ++ value]

/-! ## Lexicographic order on paths

Python sorted compares strings lexicographically by code point.  The Mathlib
String order does not reduce inside the kernel, so the comparison is
implemented directly over character lists. -/

def listLexLe : List Char → List Char → Bool
  | [], _ => true
  | _ :: _, [] => false
  | a :: as, b :: bs => if a < b then true else if b < a then false else listLexLe as bs

def strLe (a b : String) : Bool := listLexLe a.toList b.toList

/-- The ordering relation used for sorting layout paths. -/
def strLeP (a b : String) : Prop := strLe a b = true

instance : DecidableRel strLeP := fun a b => instDecidableEqBool (strLe a b) true

/-- Python sorted for lists of path strings. -/
def sortStrings (l : List String) : List String := List.insertionSort strLeP l

/-! ## Layout catalog (find_layout_files)

Each configured layout directory is modelled by the list of file paths an
os.walk over it discovers, in discovery order; a missing directory is none
(os.walk over a missing directory yields nothing, silently). -/

/-- find_layout_files: union of the recursive scans, keeping files with the
.jsonc extension, returned sorted lexicographically by path. -/
def find_layout_files (dirs : List (Option (List String))) : List String :=
  sortStrings (((dirs.map (fun o => o.getD [])).flatten).filter (fun f => strEndsWith f ".jsonc"))

/-! ## Filesystem state of the reconciliation engine -/

/-- The filesystem slice the engine reads and writes.

state:     the staterc lines, none when the file does not exist;
config:    the content of config.jsonc, none when absent;
layouts:   the layout template files as pairs of path and content — these
           are exactly the .jsonc files below the layout directories, and
           they are read-only for the engine;
styleDirs: each style directory as its path paired with the list of file
           names it contains, in directory listing order;
backups:   the contents of the backup files created, in creation order. -/
structure WaybarFS where
  state : Option (List String)
  config : Option String
  layouts : List (String × String)
  styleDirs : List (String × List String)
  backups : List String
deriving DecidableEq

/-- find_layout_files as seen by the engine: the sorted catalog paths. -/
def catalogPaths (fs : WaybarFS) : List String :=
  sortStrings (fs.layouts.map Prod.fst)

/-- os.path.exists restricted to the layout universe of the model. -/
def pathExists (fs : WaybarFS) (p : String) : Bool :=
  fs.layouts.any (fun q => q.1 == p)

/-- Content of an existing layout file (the first association wins). -/
def contentOf (fs : WaybarFS) (p : String) : String :=
  ((fs.layouts.find? (fun q => q.1 == p)).map Prod.snd).getD ""

/-- The loop over find_layout_files comparing derived names, as in
get_current_layout_from_config and main. -/
def findLayoutByName (fs : WaybarFS) (name : String) : Option String :=
  (catalogPaths fs).find? (fun l => basenameNoExt l == name)

/-- Record a backup of the given content (shutil.copyfile into the
timestamped backup path). -/
def addBackup (fs : WaybarFS) (c : String) : WaybarFS :=
  { fs with backups := fs.backups ++ [c] }

/-! ## Style resolver (resolve_style_path) -/

/-- glob.glob(os.path.join(dir, pre ++ "*.css")) over the files of one
directory: files whose name starts with pre, ends with .css, and is long
enough for both, in listing order, joined to the directory path. -/
def globCss (d : String × List String) (pre : String) : List String :=
  (d.2.filter (fun f =>
    strStartsWith f pre && strEndsWith f ".css" && pre.toList.length + 4 ≤ f.toList.length)).map
    (fun f => d.1 ++ "/" ++ f)

/-- The three glob attempts of resolve_style_path inside one style
directory: the derived name, the part of the name before a hash sign, and
the name of the containing directory (skipped when empty). -/
def tryStyleDir (name dirName : String) (d : String × List String) : Option String :=
  match globCss d name with
  | f :: _ => some f
  | [] =>
    match globCss d (beforeHash name) with
    | f :: _ => some f
    | [] =>
      if dirName ≠ "" then
        match globCss d dirName with
        | f :: _ => some f
        | [] => none
      else none

/-- resolve_style_path: try every heuristic in each style directory in
priority order, then fall back to defaults.css in the first directory that
has one, then to the defaults.css path under the first configured style
directory. -/
def resolve_style_path (styleDirs : List (String × List String)) (layout_path : String) :
    String :=
  let name := basenameNoExt layout_path
  let dirName := pyBasename (pyDirname layout_path)
  match styleDirs.findSome? (tryStyleDir name dirName) with
  | some p => p
  | none =>
    match styleDirs.find? (fun d => d.2.contains "defaults.css") with
    | some d => d.1 ++ "/defaults.css"
    | none =>
      (match styleDirs with
       | d :: _ => d.1
       | [] => "") ++ "/defaults.css"

/-- The style resolution order as the specification words it: within each
style directory in priority order, try the applicable naming heuristics
(prefix match on the derived name, then on the portion before a hash sign,
then on the containing directory name — the last has nothing to try when
that name is empty) before moving to the next directory; if no directory
yields a match, the defaults.css of the first directory containing one;
otherwise the defaults.css path under the first configured directory. -/
def resolveStyleSpec (styleDirs : List (String × List String)) (layout_path : String) :
    String :=
  let name := basenameNoExt layout_path
  let dirName := pyBasename (pyDirname layout_path)
  let heuristics := [name, beforeHash name] ++ (if dirName ≠ "" then [dirName] else [])
  match styleDirs.findSome? (fun d => heuristics.findSome? (fun h => (globCss d h).head?)) with
  | some p => p
  | none =>
    match styleDirs.find? (fun d => d.2.contains "defaults.css") with
    | some d => d.1 ++ "/defaults.css"
    | none =>
      (match styleDirs with
       | d :: _ => d.1
       | [] => "") ++ "/defaults.css"

/-! ## get_current_layout_from_config -/

/-- The legacy hash-comparison fallback of get_current_layout_from_config:
create config.jsonc as an empty object when absent, then look for a catalog
layout whose content hash matches; on a match record path and name in the
state file; on no match with a non-empty catalog, back the config up, take
the first catalog layout, record it, and copy it over the config. -/
def legacyHash (fs : WaybarFS) : Option String × WaybarFS :=
  let fs0 := if fs.config.isNone then { fs with config := some emptyJson } else fs
  let cfg := fs0.config.getD emptyJson
  match (catalogPaths fs0).find? (fun p => contentOf fs0 p == cfg) with
  | some lf =>
    let nm := basenameNoExt lf
    let st1 := setStateValue fs0.state "WAYBAR_LAYOUT_PATH" lf
    let st2 := setStateValue (some st1) "WAYBAR_LAYOUT_NAME" nm
    (some lf, { fs0 with state := some st2 })
  | none =>
    match catalogPaths fs0 with
    | [] => (none, fs0)
    | l0 :: _ =>
      let fs1 := addBackup fs0 cfg
      let nm := basenameNoExt l0
      let st1 := setStateValue fs1.state "WAYBAR_LAYOUT_PATH" l0
      let st2 := setStateValue (some st1) "WAYBAR_LAYOUT_NAME" nm
      (some l0, { fs1 with state := some st2, config := some (contentOf fs1 l0) })

/-- The name lookup step of get_current_layout_from_config followed by the
legacy fallback. -/
def getCurrentByName (fs : WaybarFS) : Option String × WaybarFS :=
  match getStateValue fs.state "WAYBAR_LAYOUT_NAME" none with
  | some ln =>
    if ln ≠ "" then
      match findLayoutByName fs ln with
      | some l => (some l, fs)
      | none => legacyHash fs
    else legacyHash fs
  | none => legacyHash fs

/-- get_current_layout_from_config: the recorded path when it exists, else
resolution by recorded name, else the legacy hash comparison. -/
def getCurrentLayoutFromConfig (fs : WaybarFS) : Option String × WaybarFS :=
  match getStateValue fs.state "WAYBAR_LAYOUT_PATH" none with
  | some lp =>
    if lp ≠ "" ∧ pathExists fs lp = true then (some lp, fs) else getCurrentByName fs
  | none => getCurrentByName fs

/-! ## ensure_state_file -/

def lpLine (p : String) : String := "WAYBAR_LAYOUT_PATH=" ++ p

def lnLine (n : String) : String := "WAYBAR_LAYOUT_NAME=" ++ n

def spLine (s : String) : String := "WAYBAR_STYLE_PATH=" ++ s

/-- ensure_state_file: when the state file is absent, derive the current
layout and write the three entries (an empty file when none was found); when
present, append exactly the missing entries, but only when the path entry
was among the missing ones and the current layout could be derived. -/
def ensureStateFile (fs : WaybarFS) : WaybarFS :=
  match fs.state with
  | none =>
    let r := getCurrentLayoutFromConfig fs
    match r.1 with
    | some c =>
      { r.2 with state := some [lpLine c, lnLine (basenameNoExt c),
          spLine (resolve_style_path fs.styleDirs c)] }
    | none => { r.2 with state := some [] }
  | some lines =>
    let hasLP := lines.any (fun l => strStartsWith l "WAYBAR_LAYOUT_PATH=")
    let hasLN := lines.any (fun l => strStartsWith l "WAYBAR_LAYOUT_NAME=")
    let hasSP := lines.any (fun l => strStartsWith l "WAYBAR_STYLE_PATH=")
    if hasLP ∧ hasLN ∧ hasSP then fs
    else
      let r := if hasLP = false then getCurrentLayoutFromConfig fs else (none, fs)
      match r.1 with
      | none => r.2
      | some c =>
        let app :=
          (if hasLP = false then [lpLine c] else []) ++
          (if hasLN = false then [lnLine (basenameNoExt c)] else []) ++
          (if hasSP = false then [spLine (resolve_style_path fs.styleDirs c)] else [])
        { r.2 with state := some ((r.2.state.getD []) ++ app) }

/-! ## The reconciliation prologue of main -/

/-- The state-file branch at the top of main: with a recorded layout path
that exists and an existing config, archive the config when its hash differs
and overwrite it with the layout; with a recorded path that does not exist
and an existing config, re-resolve by recorded name, archiving and fixing
the path on success and merely logging on failure; with no state file,
ensure_state_file. -/
def stateBranch (fs : WaybarFS) : WaybarFS :=
  match fs.state with
  | none => ensureStateFile fs
  | some _ =>
    match getStateValue fs.state "WAYBAR_LAYOUT_PATH" none with
    | none => fs
    | some lp =>
      if lp = "" then fs
      else if pathExists fs lp then
        match fs.config with
        | none => fs
        | some cfg =>
          let lc := contentOf fs lp
          let fs1 := if cfg ≠ lc then addBackup fs cfg else fs
          { fs1 with config := some lc }
      else
        match fs.config with
        | none => fs
        | some cfg =>
          match getStateValue fs.state "WAYBAR_LAYOUT_NAME" none with
          | none => fs
          | some ln =>
            if ln = "" then fs
            else
              match findLayoutByName fs ln with
              | none => fs
              | some l =>
                let lc := contentOf fs l
                let fs1 := if cfg ≠ lc then addBackup fs cfg else fs
                let fs2 := { fs1 with state := some (setStateValue fs1.state
                    "WAYBAR_LAYOUT_PATH" l) }
                { fs2 with config := some lc }

/-- The reconciliation run: everything main does to the state file, the
config and the backups before dispatching command arguments — the state
branch, the emptiness re-check of the state file, the unconditional
get_current_layout_from_config, and the final ensure_state_file. -/
def reconcile (fs : WaybarFS) : WaybarFS :=
  let fs1 := stateBranch fs
  let fs2 := if fs1.state = none ∨ fs1.state = some [] then ensureStateFile fs1 else fs1
  let fs3 := (getCurrentLayoutFromConfig fs2).2
  ensureStateFile fs3

/-- The process-level result of the reconciliation prologue.  The source
contains no sys.exit and no uncaught raise on any path of this prologue
(copy failures are caught and logged), so the run always completes normally;
an error value would model a non-zero process exit. -/
def reconcileRun (fs : WaybarFS) : Except Nat WaybarFS :=
  Except.ok (reconcile fs)

/-- Well-formedness of the layout files of a state: every layout path is
non-empty, free of whitespace padding and of the equals sign, and its
derived name carries no whitespace padding.  Genuine filesystem paths of
layout templates satisfy all of this; the conditions make the round trip
through the KEY=value state file faithful. -/
def WfFS (fs : WaybarFS) : Prop :=
  ∀ q ∈ fs.layouts, pyStrip q.1 = q.1 ∧ q.1 ≠ "" ∧ q.1.toList.contains '=' = false ∧
    pyStrip (basenameNoExt q.1) = basenameNoExt q.1

instance (fs : WaybarFS) : Decidable (WfFS fs) := by
  unfold WfFS; infer_instance

/-! ## list_layouts and set_layout

list_layouts derives a display name from the path relative to the containing
layout directory; the relative-path computation over the four fixed layout
directories is abstracted as the function nameOf. -/

/-- list_layouts: the catalog in sorted order as tuples of path, display
name and resolved style. -/
def list_layouts (nameOf : String → String) (fs : WaybarFS) :
    List (String × String × String) :=
  (catalogPaths fs).map (fun p => (p, nameOf p, resolve_style_path fs.styleDirs p))

/-- set_layout: look the target up among the list_layouts pairs by path or
by display name (sys.exit on a miss, modelled as none, as is a missing state
file which the unguarded open would turn into an uncaught exception);
rewrite in place every state line for WAYBAR_LAYOUT_PATH and
WAYBAR_STYLE_PATH — and no other line — then copy the layout content over
the config.  The style file regeneration and process restart fall outside
the modelled state. -/
def set_layout (nameOf : String → String) (target : String) (fs : WaybarFS) :
    Option WaybarFS :=
  match fs.state with
  | none => none
  | some st =>
    match (list_layouts nameOf fs).find? (fun pr => target == pr.1 || target == pr.2.1) with
    | none => none
    | some pr =>
      let sp := resolve_style_path fs.styleDirs pr.1
      let st1 := st.map (fun l =>
        if strStartsWith l "WAYBAR_LAYOUT_PATH=" then lpLine pr.1
        else if strStartsWith l "WAYBAR_STYLE_PATH=" then spLine sp
        else l)
      some { fs with state := some st1, config := some (contentOf fs pr.1) }

/-! ## handle_layout_navigation -/

/-- The current-layout read of handle_layout_navigation: the first state
line for WAYBAR_LAYOUT_PATH, split on every equals sign, element 1,
stripped. -/
def navCurrent (st : List String) : Option String :=
  (st.find? (fun l => strStartsWith l "WAYBAR_LAYOUT_PATH=")).map
    (fun l => pyStrip (secondEqField l))

/-- The identity of the active layout as navigation sees it. -/
def activeLayout (fs : WaybarFS) : Option String :=
  match fs.state with
  | none => none
  | some st => navCurrent st

/-- The index step and set_layout call of handle_layout_navigation once the
current layout is known; none models the uncaught ValueError of list.index
when the current layout is not cataloged (unreachable from the caller). -/
def navGo (nameOf : String → String) (next? : Bool) (cur : String) (fs : WaybarFS) :
    Option WaybarFS :=
  let layouts := catalogPaths fs
  if layouts.contains cur then
    let i := layouts.indexOf cur
    let n := layouts.length
    let tgt := if next? then layouts.getD ((i + 1) % n) "" else layouts.getD ((i + n - 1) % n) ""
    set_layout nameOf tgt fs
  else none

/-- handle_layout_navigation for the next and previous options: read the
current layout from the state file (logging and returning when absent),
re-resolve it through get_current_layout_from_config when it is not
cataloged (logging and returning on failure, keeping any side effects), then
switch to the neighbour in sorted catalog order, wrapping at both ends.
none models abnormal termination (missing state file). -/
def handle_layout_navigation (nameOf : String → String) (next? : Bool) (fs : WaybarFS) :
    Option WaybarFS :=
  match fs.state with
  | none => none
  | some st =>
    match navCurrent st with
    | none => some fs
    | some cur =>
      if cur = "" then some fs
      else if (catalogPaths fs).contains cur then navGo nameOf next? cur fs
      else
        match getCurrentLayoutFromConfig fs with
        | (none, fs1) => some fs1
        | (some c, fs1) => navGo nameOf next? c fs1

/-- Total wrapper used to iterate navigation; under the hypotheses of the
navigation claims the underlying call never degenerates. -/
def navStep (nameOf : String → String) (next? : Bool) (fs : WaybarFS) : WaybarFS :=
  (handle_layout_navigation nameOf next? fs).getD fs

/-! ## generate_includes

The includes.json object is modelled as an association list from keys to
JSON values; values other than the include list are opaque. -/

inductive JVal where
  | arr (xs : List String) : JVal
  | prim (s : String) : JVal
deriving DecidableEq

/-- Python dict assignment on the modelled JSON object: replace the value of
an existing key in place, append the binding otherwise. -/
def dictSet (obj : List (String × JVal)) (k : String) (v : JVal) : List (String × JVal) :=
  if obj.any (fun kv => kv.1 == k) then
    obj.map (fun kv => if kv.1 == k then (k, v) else kv)
  else obj ++ [(k, v)]

/-- list(dict.fromkeys(xs)): deduplication keeping first occurrences in
order. -/
def dedupFirst : List String → List String
  | [] => []
  | x :: xs => x :: dedupFirst (xs.filter (fun y => ¬ y = x))
termination_by l => l.length
decreasing_by
  simp only [List.length_cons]
  exact Nat.lt_succ_of_le (List.length_filter_le _ _)

/-- The module definition files gathered by generate_includes: for each
module directory (missing ones skipped), the files matching *.json then
those matching *.jsonc, in listing order, as directory-joined paths. -/
def moduleIncludes (dirs : List (Option (List String))) : List String :=
  (dirs.map (fun o =>
    match o with
    | none => []
    | some fl => fl.filter (fun f => strEndsWith f ".json") ++
        fl.filter (fun f => strEndsWith f ".jsonc"))).flatten

/-- generate_includes on a pre-existing includes.json holding a JSON object:
set the include key to the deduplicated module file list, leaving every
other binding as it was. -/
def generate_includes (obj : List (String × JVal)) (dirs : List (Option (List String))) :
    List (String × JVal) :=
  dictSet obj "include" (JVal.arr (dedupFirst (moduleIncludes dirs)))


/-! ## Concrete fixtures for witnesses and counterexamples -/

/-- A state record pointing at an existing layout while the live config has
drifted away from it. -/
def waybarFixtureD : WaybarFS :=
  { state := some ["WAYBAR_LAYOUT_PATH=L/a.jsonc", "WAYBAR_LAYOUT_NAME=a",
      "WAYBAR_STYLE_PATH=S/defaults.css"],
    config := some "X",
    layouts := [("L/a.jsonc", "A")],
    styleDirs := [("S", ["defaults.css"])],
    backups := [] }

/-- No state record, no live config, three cataloged layouts. -/
def waybarFixtureA : WaybarFS :=
  { state := none,
    config := none,
    layouts := [("L/a.jsonc", "A"), ("L/b.jsonc", "B"), ("L/c.jsonc", "C")],
    styleDirs := [("S", ["defaults.css"])],
    backups := [] }

/-- A state record with a dangling layout path and a name matching no
cataloged layout. -/
def waybarFixtureC : WaybarFS :=
  { state := some ["WAYBAR_LAYOUT_PATH=/gone.jsonc", "WAYBAR_LAYOUT_NAME=gone",
      "WAYBAR_STYLE_PATH=/s.css"],
    config := some "X",
    layouts := [("L/a.jsonc", "A")],
    styleDirs := [("S", ["defaults.css"])],
    backups := [] }

/-- A state record holding only a layout name while the live config has
drifted from the named layout: the first run appends the missing path entry
without touching the config, so only the second run performs the drift
repair and archives a backup. -/
def waybarFixtureB : WaybarFS :=
  { state := some ["WAYBAR_LAYOUT_NAME=a"],
    config := some "X",
    layouts := [("L/a.jsonc", "A")],
    styleDirs := [("S", ["defaults.css"])],
    backups := [] }

/-- Absence of the one configuration the state branch of main always
repairs before the later prologue steps run: a dangling recorded path
beside an existing live config and a recorded name that still resolves. -/
def NoPendingStale (t : WaybarFS) : Prop :=
  ∀ p c n l, getStateValue t.state "WAYBAR_LAYOUT_PATH" none = some p → p ≠ "" →
    pathExists t p = false → t.config = some c →
    getStateValue t.state "WAYBAR_LAYOUT_NAME" none = some n → n ≠ "" →
    findLayoutByName t n = some l → False

/-- The shapes a completed reconciliation run can leave behind: a valid
recorded layout path; an empty catalog; or an invalid recorded path (empty,
or dangling with no live config) whose recorded name still resolves. -/
def GoodState (s : WaybarFS) : Prop :=
  (∃ ls, s.state = some ls) ∧
  ((∃ p, getStateValue s.state "WAYBAR_LAYOUT_PATH" none = some p ∧ p ≠ "" ∧
      pathExists s p = true) ∨
   catalogPaths s = [] ∨
   (∃ p, getStateValue s.state "WAYBAR_LAYOUT_PATH" none = some p ∧
      (p = "" ∨ (pathExists s p = false ∧ s.config = none)) ∧
      ∃ n l, getStateValue s.state "WAYBAR_LAYOUT_NAME" none = some n ∧ n ≠ "" ∧
        findLayoutByName s n = some l))

/-- The first two steps of the reconciliation prologue: the state branch and
the emptiness re-check of the state file. -/
def prologue (fs : WaybarFS) : WaybarFS :=
  let fs1 := stateBranch fs
  if fs1.state = none ∨ fs1.state = some [] then ensureStateFile fs1 else fs1

/-- A fully populated state record beside a two-layout catalog, for
exercising a switch to the second layout. -/
def waybarFixtureE : WaybarFS :=
  { state := some ["WAYBAR_LAYOUT_PATH=L/a.jsonc", "WAYBAR_LAYOUT_NAME=a",
      "WAYBAR_STYLE_PATH=S/defaults.css"],
    config := some "A",
    layouts := [("L/a.jsonc", "A"), ("L/b.jsonc", "B")],
    styleDirs := [("S", ["defaults.css"])],
    backups := [] }

-- FIXTURES-END (definitions above, theorems below)

/-! # Infrastructure lemmas -/

theorem toList_injective {s t : String} (h : s.toList = t.toList) : s = t := by
  cases s
  cases t
  exact congrArg String.mk h

theorem toList_append (s t : String) : (s ++ t).toList = s.toList ++ t.toList := by
  simp [String.toList]

theorem asString_toList (l : List Char) : (l.asString).toList = l := rfl

theorem toList_asString (s : String) : (s.toList).asString = s := rfl

theorem afterFirstEqCh_key {ks rest : List Char} (hk : '=' ∉ ks) :
    afterFirstEqCh (ks ++ '=' :: rest) = rest := by
  induction ks with
  | nil => simp [afterFirstEqCh]
  | cons c cs ih =>
    have hc : ¬ c = '=' := fun h => hk (h ▸ List.mem_cons_self c cs)
    have hcs : '=' ∉ cs := fun h => hk (List.mem_cons_of_mem c h)
    simp [afterFirstEqCh, hc, ih hcs]

theorem takeWhileNe_key {ks rest : List Char} (hk : '=' ∉ ks) :
    (ks ++ '=' :: rest).takeWhile (fun c => !(c = '=' : Bool)) = ks := by
  induction ks with
  | nil => simp [List.takeWhile]
  | cons c cs ih =>
    have hc : ¬ c = '=' := fun h => hk (h ▸ List.mem_cons_self c cs)
    have hcs : '=' ∉ cs := fun h => hk (List.mem_cons_of_mem c h)
    simp only [List.cons_append, List.takeWhile_cons]
    simp [hc, ih hcs]

theorem keyEq_toList (k : String) : (k ++ "=").toList = k.toList ++ ['='] := by
  rw [toList_append]
  rfl

theorem line_decompose {l k : String}
    (h : strStartsWith l (k ++ "=") = true) :
    ∃ t, l.toList = k.toList ++ '=' :: t := by
  have hpre : (k ++ "=").toList <+: l.toList :=
    (List.isPrefixOf_iff_prefix).mp h
  rcases hpre with ⟨t, ht⟩
  refine ⟨t, ?_⟩
  rw [← ht, keyEq_toList]
  simp

theorem strStartsWith_key_eq {k1 k2 l : String}
    (h1 : strStartsWith l (k1 ++ "=") = true) (h2 : strStartsWith l (k2 ++ "=") = true)
    (hk1 : '=' ∉ k1.toList) (hk2 : '=' ∉ k2.toList) : k1 = k2 := by
  rcases line_decompose h1 with ⟨t1, ht1⟩
  rcases line_decompose h2 with ⟨t2, ht2⟩
  have e1 : l.toList.takeWhile (fun c => !(c = '=' : Bool)) = k1.toList := by
    rw [ht1]
    exact takeWhileNe_key hk1
  have e2 : l.toList.takeWhile (fun c => !(c = '=' : Bool)) = k2.toList := by
    rw [ht2]
    exact takeWhileNe_key hk2
  exact toList_injective (e1 ▸ e2)

theorem strStartsWith_key (k v : String) : strStartsWith (k ++ "=" ++ v) (k ++ "=") = true := by
  apply (List.isPrefixOf_iff_prefix).mpr
  exact ⟨v.toList, (toList_append _ _).symm⟩

theorem afterFirstEq_key {k v : String} (hk : '=' ∉ k.toList) :
    afterFirstEq (k ++ "=" ++ v) = v := by
  unfold afterFirstEq
  have : (k ++ "=" ++ v).toList = k.toList ++ '=' :: v.toList := by
    rw [toList_append, keyEq_toList]
    simp
  rw [this, afterFirstEqCh_key hk, toList_asString]

theorem strStartsWith_line_ne {k1 k2 l : String} (hk1 : '=' ∉ k1.toList)
    (hk2 : '=' ∉ k2.toList) (hne : k1 ≠ k2) (h : strStartsWith l (k2 ++ "=") = true) :
    strStartsWith l (k1 ++ "=") = false := by
  by_contra hc
  have h1 : strStartsWith l (k1 ++ "=") = true := by
    revert hc
    cases strStartsWith l (k1 ++ "=") <;> simp
  exact hne (strStartsWith_key_eq h1 h hk1 hk2)


theorem find?_map_pres (f : String → String) (p : String → Bool) (ls : List String)
    (hf : ∀ l, p (f l) = p l ∧ (p l = true → f l = l)) :
    (ls.map f).find? p = ls.find? p := by
  induction ls with
  | nil => rfl
  | cons h t ih =>
    by_cases hph : p h = true
    · rw [List.map_cons, (hf h).2 hph, List.find?_cons_of_pos _ hph,
        List.find?_cons_of_pos _ hph]
    · rw [List.map_cons, List.find?_cons_of_neg _ (by rw [(hf h).1]; exact hph),
        List.find?_cons_of_neg _ hph, ih]

theorem find?_replace (p : String → Bool) (L : String) (ls : List String)
    (hL : p L = true) (hany : ls.any p = true) :
    (ls.map (fun l => if p l then L else l)).find? p = some L := by
  induction ls with
  | nil => simp at hany
  | cons h t ih =>
    by_cases hph : p h = true
    · rw [List.map_cons, if_pos hph, List.find?_cons_of_pos _ hL]
    · have hph' : p h = false := Bool.eq_false_iff.mpr (fun he => hph he)
      have ht : t.any p = true := by
        simp only [List.any_cons, hph', Bool.false_or] at hany
        exact hany
      rw [List.map_cons, if_neg hph, List.find?_cons_of_neg _ hph, ih ht]

theorem find?_append_none {p : String → Bool} {l1 l2 : List String}
    (h : l1.find? p = none) : (l1 ++ l2).find? p = l2.find? p := by
  rw [List.find?_append, h, Option.none_or]

theorem getStateValue_set_self {st : Option (List String)} {k v : String}
    {d : Option String} (hk : '=' ∉ k.toList) :
    getStateValue (some (setStateValue st k v)) k d = some (pyStrip v) := by
  have hcons : ∀ t : List String,
      List.find? (fun l => strStartsWith l (k ++ "=")) ((k ++ "=" ++ v) :: t) =
        some (k ++ "=" ++ v) :=
    fun t => @List.find?_cons_of_pos String (fun l => strStartsWith l (k ++ "="))
      (k ++ "=" ++ v) t (strStartsWith_key k v)
  cases st with
  | none =>
    simp only [getStateValue, setStateValue, hcons, afterFirstEq_key hk]
  | some ls =>
    by_cases hany : ls.any (fun l => strStartsWith l (k ++ "=")) = true
    · simp only [getStateValue, setStateValue, hany, if_true,
        find?_replace (fun l => strStartsWith l (k ++ "=")) (k ++ "=" ++ v) ls
          (strStartsWith_key k v) hany, afterFirstEq_key hk]
    · have hany' : ls.any (fun l => strStartsWith l (k ++ "=")) = false :=
        Bool.eq_false_iff.mpr hany
      have hnone : ls.find? (fun l => strStartsWith l (k ++ "=")) = none := by
        rw [List.find?_eq_none]
        intro x hx hpx
        exact hany (List.any_eq_true.mpr ⟨x, hx, hpx⟩)
      simp only [getStateValue, setStateValue, hany', Bool.false_eq_true, if_false,
        find?_append_none hnone, hcons, afterFirstEq_key hk]

theorem getStateValue_set_other {st : Option (List String)} {k k2 v : String}
    {d : Option String} (hk : '=' ∉ k.toList) (hk2 : '=' ∉ k2.toList) (hne : k ≠ k2) :
    getStateValue (some (setStateValue st k2 v)) k d = getStateValue st k d := by
  have hnewline : strStartsWith (k2 ++ "=" ++ v) (k ++ "=") = false :=
    strStartsWith_line_ne hk hk2 hne (strStartsWith_key k2 v)
  have hcons : ∀ t : List String,
      List.find? (fun l => strStartsWith l (k ++ "=")) ((k2 ++ "=" ++ v) :: t) =
        List.find? (fun l => strStartsWith l (k ++ "=")) t :=
    fun t => @List.find?_cons_of_neg String (fun l => strStartsWith l (k ++ "="))
      (k2 ++ "=" ++ v) t (by simp [hnewline])
  cases st with
  | none =>
    simp only [getStateValue, setStateValue, hcons, List.find?_nil]
  | some ls =>
    by_cases hany : ls.any (fun l => strStartsWith l (k2 ++ "=")) = true
    · have hmap : (ls.map (fun l => if strStartsWith l (k2 ++ "=") then k2 ++ "=" ++ v
          else l)).find? (fun l => strStartsWith l (k ++ "=")) =
          ls.find? (fun l => strStartsWith l (k ++ "=")) := by
        apply find?_map_pres
        intro l
        constructor
        · by_cases hpl : strStartsWith l (k2 ++ "=") = true
          · rw [if_pos hpl, hnewline, strStartsWith_line_ne hk hk2 hne hpl]
          · rw [if_neg hpl]
        · intro hl
          rw [if_neg (by
            rw [strStartsWith_line_ne hk2 hk (fun h => hne h.symm) hl]
            exact fun h => nomatch h)]
      simp only [getStateValue, setStateValue, hany, if_true, hmap]
    · have hany' : ls.any (fun l => strStartsWith l (k2 ++ "=")) = false :=
        Bool.eq_false_iff.mpr hany
      have happ : (ls ++ [k2 ++ "=" ++ v]).find? (fun l => strStartsWith l (k ++ "=")) =
          ls.find? (fun l => strStartsWith l (k ++ "=")) := by
        rw [List.find?_append, hcons, List.find?_nil, Option.or_none]
      simp only [getStateValue, setStateValue, hany', Bool.false_eq_true, if_false, happ]

theorem getStateValue_no_line {ls : List String} {k : String} {d : Option String}
    (h : ∀ l ∈ ls, strStartsWith l (k ++ "=") = false) :
    getStateValue (some ls) k d = d := by
  have hnone : ls.find? (fun l => strStartsWith l (k ++ "=")) = none := by
    rw [List.find?_eq_none]
    intro x hx
    rw [h x hx]
    exact fun hc => nomatch hc
  simp only [getStateValue, hnone]

/-! # Claim C8: state store round trip and frame -/

/-- C8, counterexample: the claim fails as stated, because get strips
whitespace around the stored value.  Setting the key K to the single-line
value consisting of a blank followed by x reads back as x, not the value
that was set. -/
theorem C8_counterexample :
    getStateValue (some (setStateValue none "K" " x")) "K" none ≠ some " x" ∧
    getStateValue (some (setStateValue none "K" " x")) "K" none = some "x" := by
  decide

/-- C8, amended: for every key free of the equals sign and every single-line
value with no leading or trailing whitespace, after set the store holds the
key and get returns the value; get of any other equals-free key is unchanged
by the set (other lines are preserved, replaced in place or appended); and
get returns the default when the store file is absent or holds no line for
the key. -/
theorem C8_store_roundtrip (st : Option (List String)) (k v k2 : String)
    (d d2 : Option String) (ls : List String)
    (hk : '=' ∉ k.toList) (hv : pyStrip v = v) (hk2 : '=' ∉ k2.toList) (hne : k2 ≠ k)
    (hnoline : ∀ l ∈ ls, strStartsWith l (k ++ "=") = false) :
    getStateValue (some (setStateValue st k v)) k d = some v ∧
    getStateValue (some (setStateValue st k v)) k2 d2 = getStateValue st k2 d2 ∧
    getStateValue none k d = d ∧
    getStateValue (some ls) k d = d := by
  refine ⟨?_, ?_, rfl, getStateValue_no_line hnoline⟩
  · rw [getStateValue_set_self hk, hv]
  · exact getStateValue_set_other hk2 hk hne

/-- C8 witness: the amended round trip at a concrete store. -/
theorem C8_store_roundtrip_witness :
    getStateValue (some (setStateValue (some ["A=1"]) "B" "2")) "B" none = some "2" ∧
    getStateValue (some (setStateValue (some ["A=1"]) "B" "2")) "A" none =
      getStateValue (some ["A=1"]) "A" none ∧
    getStateValue none "B" none = none ∧
    getStateValue (some ["A=1"]) "B" none = none := by
  have h := C8_store_roundtrip (some ["A=1"]) "B" "2" "A" none none ["A=1"]
    (by decide) (by decide) (by decide) (by decide) (by decide)
  exact h

/-! # Order lemmas for the path sort -/

theorem listLexLe_total : ∀ a b : List Char, listLexLe a b = true ∨ listLexLe b a = true := by
  intro a
  induction a with
  | nil => intro b; left; rfl
  | cons x xs ih =>
    intro b
    cases b with
    | nil => right; rfl
    | cons y ys =>
      rcases lt_trichotomy x y with h | h | h
      · left; simp [listLexLe, h]
      · subst h
        rcases ih ys with h' | h'
        · left; simp [listLexLe, lt_irrefl, h']
        · right; simp [listLexLe, lt_irrefl, h']
      · right; simp [listLexLe, h]

theorem listLexLe_trans : ∀ a b c : List Char, listLexLe a b = true →
    listLexLe b c = true → listLexLe a c = true := by
  intro a
  induction a with
  | nil => intro b c _ _; rfl
  | cons x xs ih =>
    intro b c hab hbc
    cases b with
    | nil => simp [listLexLe] at hab
    | cons y ys =>
      cases c with
      | nil => simp [listLexLe] at hbc
      | cons z zs =>
        by_cases h1 : x < y
        · by_cases h2 : y < z
          · simp [listLexLe, lt_trans h1 h2]
          · by_cases h3 : z < y
            · simp [listLexLe, h2, h3] at hbc
            · have : y = z := le_antisymm (not_lt.mp h3) (not_lt.mp h2)
              subst this
              simp [listLexLe, h1]
        · by_cases h1' : y < x
          · simp [listLexLe, h1, h1'] at hab
          · have hxy : x = y := le_antisymm (not_lt.mp h1') (not_lt.mp h1)
            subst hxy
            simp only [listLexLe, if_neg h1, if_neg h1'] at hab
            by_cases h2 : x < z
            · simp [listLexLe, h2]
            · by_cases h3 : z < x
              · simp [listLexLe, h2, h3] at hbc
              · simp only [listLexLe, if_neg h2, if_neg h3] at hbc ⊢
                exact ih ys zs hab hbc

theorem listLexLe_antisymm : ∀ a b : List Char, listLexLe a b = true →
    listLexLe b a = true → a = b := by
  intro a
  induction a with
  | nil =>
    intro b _ hba
    cases b with
    | nil => rfl
    | cons y ys => simp [listLexLe] at hba
  | cons x xs ih =>
    intro b hab hba
    cases b with
    | nil => simp [listLexLe] at hab
    | cons y ys =>
      by_cases h1 : x < y
      · simp [listLexLe, h1, lt_asymm h1] at hba
      · by_cases h2 : y < x
        · simp [listLexLe, h1, h2] at hab
        · have hxy : x = y := le_antisymm (not_lt.mp h2) (not_lt.mp h1)
          subst hxy
          simp only [listLexLe, if_neg h1, if_neg h2] at hab hba
          rw [ih ys hab hba]

theorem strLeP_total : ∀ a b : String, strLeP a b ∨ strLeP b a :=
  fun a b => listLexLe_total a.toList b.toList

theorem strLeP_trans : ∀ a b c : String, strLeP a b → strLeP b c → strLeP a c :=
  fun a b c => listLexLe_trans a.toList b.toList c.toList

theorem strLeP_antisymm : ∀ a b : String, strLeP a b → strLeP b a → a = b :=
  fun _ _ hab hba => toList_injective (listLexLe_antisymm _ _ hab hba)

/-! # Claim C9: catalog order -/

/-- C9: find_layout_files returns exactly the .jsonc files of the scanned
directories (a permutation of the filtered union), sorted by the
lexicographic path order; the result depends only on the discovered file
set, not on discovery order; and a missing directory contributes nothing
rather than failing. -/
theorem C9_catalog_order (d1 d2 : List (Option (List String)))
    (hperm : List.Perm
      (((d1.map (fun o => o.getD [])).flatten).filter (fun f => strEndsWith f ".jsonc"))
      (((d2.map (fun o => o.getD [])).flatten).filter (fun f => strEndsWith f ".jsonc"))) :
    List.Sorted strLeP (find_layout_files d1) ∧
    List.Perm (find_layout_files d1)
      (((d1.map (fun o => o.getD [])).flatten).filter (fun f => strEndsWith f ".jsonc")) ∧
    find_layout_files d1 = find_layout_files d2 ∧
    find_layout_files (none :: d1) = find_layout_files d1 := by
  haveI : IsTotal String strLeP := ⟨strLeP_total⟩
  haveI : IsTrans String strLeP := ⟨strLeP_trans⟩
  haveI : IsAntisymm String strLeP := ⟨strLeP_antisymm⟩
  refine ⟨List.sorted_insertionSort strLeP _, List.perm_insertionSort strLeP _, ?_, ?_⟩
  · exact List.eq_of_perm_of_sorted
      ((List.perm_insertionSort strLeP _).trans
        (hperm.trans (List.perm_insertionSort strLeP _).symm))
      (List.sorted_insertionSort strLeP _) (List.sorted_insertionSort strLeP _)
  · rfl

/-- C9 witness: two scans discovering the same files in different orders,
with a missing directory present, sort to the same catalog. -/
theorem C9_catalog_order_witness :
    List.Sorted strLeP (find_layout_files [some ["b.jsonc", "a.jsonc", "x.css"]]) ∧
    List.Perm (find_layout_files [some ["b.jsonc", "a.jsonc", "x.css"]])
      ((([some ["b.jsonc", "a.jsonc", "x.css"]].map (fun o => o.getD [])).flatten).filter
        (fun f => strEndsWith f ".jsonc")) ∧
    find_layout_files [some ["b.jsonc", "a.jsonc", "x.css"]] =
      find_layout_files [none, some ["a.jsonc"], some ["b.jsonc"]] ∧
    find_layout_files (none :: [some ["b.jsonc", "a.jsonc", "x.css"]]) =
      find_layout_files [some ["b.jsonc", "a.jsonc", "x.css"]] :=
  C9_catalog_order [some ["b.jsonc", "a.jsonc", "x.css"]]
    [none, some ["a.jsonc"], some ["b.jsonc"]] (by decide)

/-! # Claim C10: include manifest regeneration -/

theorem lookup_replace_self (k : String) (v : JVal) :
    ∀ obj : List (String × JVal), obj.any (fun kv => kv.1 == k) = true →
    (obj.map (fun kv => if kv.1 == k then (k, v) else kv)).lookup k = some v := by
  intro obj
  induction obj with
  | nil => intro h; simp at h
  | cons hd t ih =>
    obtain ⟨k1, v1⟩ := hd
    intro hany
    by_cases h : k1 = k
    · subst h
      have hite : (if ((k1 : String) == k1) = true then (k1, v) else (k1, v1)) = (k1, v) :=
        if_pos (by simp)
      simp only [List.map_cons]
      rw [hite]
      simp [List.lookup]
    · have hb : ((k1 : String) == k) = false := by
        rw [beq_eq_false_iff_ne]
        exact h
      have hb2 : (k == k1) = false := by
        rw [beq_eq_false_iff_ne]
        exact fun he => h he.symm
      have hite : (if ((k1 : String) == k) = true then (k, v) else (k1, v1)) = (k1, v1) :=
        if_neg (by simp [hb])
      have ht : t.any (fun kv => kv.1 == k) = true := by
        simpa [hb] using hany
      simp only [List.map_cons]
      rw [hite]
      simp only [List.lookup, hb2]
      exact ih ht

theorem lookup_append_self (k : String) (v : JVal) :
    ∀ obj : List (String × JVal), obj.any (fun kv => kv.1 == k) = false →
    (obj ++ [(k, v)]).lookup k = some v := by
  intro obj
  induction obj with
  | nil => intro _; simp [List.lookup]
  | cons hd t ih =>
    obtain ⟨k1, v1⟩ := hd
    intro hany
    simp only [List.any_cons, Bool.or_eq_false_iff] at hany
    have hb2 : (k == k1) = false := by
      rw [beq_eq_false_iff_ne]
      intro he
      rw [beq_eq_false_iff_ne] at hany
      exact hany.1 he.symm
    simp only [List.cons_append, List.lookup, hb2]
    exact ih hany.2

theorem lookup_replace_other {k k' : String} (v : JVal) (hne : k' ≠ k) :
    ∀ obj : List (String × JVal),
    (obj.map (fun kv => if kv.1 == k then (k, v) else kv)).lookup k' = obj.lookup k' := by
  intro obj
  induction obj with
  | nil => rfl
  | cons hd t ih =>
    obtain ⟨k1, v1⟩ := hd
    by_cases h : k1 = k
    · subst h
      have hite : (if ((k1 : String) == k1) = true then (k1, v) else (k1, v1)) = (k1, v) :=
        if_pos (by simp)
      have hb2 : (k' == k1) = false := by
        rw [beq_eq_false_iff_ne]
        exact hne
      simp only [List.map_cons]
      rw [hite]
      simp only [List.lookup, hb2]
      exact ih
    · have hb : ((k1 : String) == k) = false := by
        rw [beq_eq_false_iff_ne]
        exact h
      have hite : (if ((k1 : String) == k) = true then (k, v) else (k1, v1)) = (k1, v1) :=
        if_neg (by simp [hb])
      simp only [List.map_cons]
      rw [hite]
      by_cases h2 : k' = k1
      · subst h2
        simp [List.lookup]
      · have hb2 : (k' == k1) = false := by
          rw [beq_eq_false_iff_ne]
          exact h2
        simp only [List.lookup, hb2]
        exact ih

theorem lookup_append_other {k k' : String} (v : JVal) (hne : k' ≠ k) :
    ∀ obj : List (String × JVal), (obj ++ [(k, v)]).lookup k' = obj.lookup k' := by
  intro obj
  induction obj with
  | nil =>
    have hb : (k' == k) = false := by
      rw [beq_eq_false_iff_ne]
      exact hne
    simp [List.lookup, hb]
  | cons hd t ih =>
    obtain ⟨k1, v1⟩ := hd
    by_cases h2 : k' = k1
    · subst h2
      simp [List.lookup]
    · have hb2 : (k' == k1) = false := by
        rw [beq_eq_false_iff_ne]
        exact h2
      simp only [List.cons_append, List.lookup, hb2]
      exact ih

/-- C10: regenerating the include manifest over a pre-existing JSON object
rewrites exactly the include key — set to the deduplicated, first-occurrence
ordered module definition file list — and leaves the binding of every other
top-level key unchanged. -/
theorem C10_includes_frame (obj : List (String × JVal)) (dirs : List (Option (List String)))
    (k : String) (hk : k ≠ "include") :
    (generate_includes obj dirs).lookup "include" =
      some (JVal.arr (dedupFirst (moduleIncludes dirs))) ∧
    (generate_includes obj dirs).lookup k = obj.lookup k := by
  constructor
  · unfold generate_includes dictSet
    by_cases hany : obj.any (fun kv => kv.1 == "include") = true
    · rw [if_pos hany]
      exact lookup_replace_self _ _ obj hany
    · rw [if_neg hany]
      exact lookup_append_self _ _ obj (Bool.eq_false_iff.mpr hany)
  · unfold generate_includes dictSet
    by_cases hany : obj.any (fun kv => kv.1 == "include") = true
    · rw [if_pos hany]
      exact lookup_replace_other _ hk obj
    · rw [if_neg hany]
      exact lookup_append_other _ hk obj

/-- C10 witness: a manifest holding an unrelated key and a stale include
list, regenerated over two module directories with a duplicate file. -/
theorem C10_includes_frame_witness :
    (generate_includes [("position", JVal.prim "top"), ("include", JVal.arr ["old"])]
        [some ["m/a.json", "m/b.jsonc"], none, some ["m/a.json"]]).lookup "include" =
      some (JVal.arr (dedupFirst (moduleIncludes
        [some ["m/a.json", "m/b.jsonc"], none, some ["m/a.json"]]))) ∧
    (generate_includes [("position", JVal.prim "top"), ("include", JVal.arr ["old"])]
        [some ["m/a.json", "m/b.jsonc"], none, some ["m/a.json"]]).lookup "position" =
      [("position", JVal.prim "top"), ("include", JVal.arr ["old"])].lookup "position" :=
  C10_includes_frame [("position", JVal.prim "top"), ("include", JVal.arr ["old"])]
    [some ["m/a.json", "m/b.jsonc"], none, some ["m/a.json"]] "position" (by decide)

/-! # Claim C4: style resolution order and totality -/

theorem findSome?_congr {α β : Type} {f g : α → Option β} (h : ∀ a, f a = g a) :
    ∀ l : List α, l.findSome? f = l.findSome? g := by
  intro l
  induction l with
  | nil => rfl
  | cons a t ih =>
    simp only [List.findSome?_cons, h a, ih]

theorem tryStyleDir_eq (name dirName : String) (d : String × List String) :
    tryStyleDir name dirName d =
      ([name, beforeHash name] ++ (if dirName ≠ "" then [dirName] else [])).findSome?
        (fun h => (globCss d h).head?) := by
  unfold tryStyleDir
  by_cases hd : dirName = ""
  · rw [if_neg (by simp [hd]), if_neg (by simp [hd])]
    cases hg1 : globCss d name with
    | cons f1 t1 => simp [List.findSome?_cons, hg1]
    | nil =>
      cases hg2 : globCss d (beforeHash name) with
      | cons f2 t2 => simp [List.findSome?_cons, hg1, hg2]
      | nil => simp [List.findSome?_cons, hg1, hg2]
  · rw [if_pos (by simp [hd]), if_pos (by simp [hd])]
    cases hg1 : globCss d name with
    | cons f1 t1 => simp [List.findSome?_cons, hg1]
    | nil =>
      cases hg2 : globCss d (beforeHash name) with
      | cons f2 t2 => simp [List.findSome?_cons, hg1, hg2]
      | nil =>
        cases hg3 : globCss d dirName with
        | cons f3 t3 => simp [List.findSome?_cons, hg1, hg2, hg3]
        | nil => simp [List.findSome?_cons, hg1, hg2, hg3]

/-- C4: resolve_style_path equals the specification order — within each
style directory, in priority order, all applicable naming heuristics before
the next directory; then the defaults.css of the first directory containing
one; and when even that is absent it still returns the defaults.css path
under the first configured style directory, so resolution is total. -/
theorem C4_style_resolution (styleDirs : List (String × List String)) (lp : String) :
    resolve_style_path styleDirs lp = resolveStyleSpec styleDirs lp ∧
    (styleDirs.findSome?
        (tryStyleDir (basenameNoExt lp) (pyBasename (pyDirname lp))) = none →
      styleDirs.find? (fun d => d.2.contains "defaults.css") = none →
      ∀ d0 rest, styleDirs = d0 :: rest →
        resolve_style_path styleDirs lp = d0.1 ++ "/defaults.css") := by
  constructor
  · simp only [resolve_style_path, resolveStyleSpec]
    rw [findSome?_congr (tryStyleDir_eq (basenameNoExt lp) (pyBasename (pyDirname lp)))]
  · intro h1 h2 d0 rest hsd
    simp only [resolve_style_path]
    rw [h1, h2, hsd]

/-- C4 witness: a style directory set with no heuristic match and no
defaults file anywhere still resolves to the defaults path of the first
directory, and the code resolver agrees with the specification order. -/
theorem C4_style_resolution_witness :
    resolve_style_path [("A", ["z.txt"])] "L/x.jsonc" =
      resolveStyleSpec [("A", ["z.txt"])] "L/x.jsonc" ∧
    ([("A", ["z.txt"])].findSome?
        (tryStyleDir (basenameNoExt "L/x.jsonc")
          (pyBasename (pyDirname "L/x.jsonc"))) = none →
      [("A", ["z.txt"])].find? (fun d => d.2.contains "defaults.css") = none →
      ∀ d0 rest, [("A", ["z.txt"])] = d0 :: rest →
        resolve_style_path [("A", ["z.txt"])] "L/x.jsonc" = d0.1 ++ "/defaults.css") :=
  C4_style_resolution [("A", ["z.txt"])] "L/x.jsonc"

/-! # Engine lemmas -/

theorem lpKey_noEq : '=' ∉ ("WAYBAR_LAYOUT_PATH" : String).toList := by decide

theorem lnKey_noEq : '=' ∉ ("WAYBAR_LAYOUT_NAME" : String).toList := by decide

theorem anyKey_of_get {ls : List String} {k v : String}
    (h : getStateValue (some ls) k none = some v) :
    ls.any (fun l => strStartsWith l (k ++ "=")) = true := by
  simp only [getStateValue] at h
  cases hf : ls.find? (fun l => strStartsWith l (k ++ "=")) with
  | none => rw [hf] at h; exact absurd h (by simp)
  | some l =>
    exact List.any_eq_true.mpr ⟨l, List.mem_of_find?_eq_some hf,
      List.find?_some (p := fun l => strStartsWith l (k ++ "=")) hf⟩

theorem state_nonempty_of_get {ls : List String} {k v : String}
    (h : getStateValue (some ls) k none = some v) : ls ≠ [] := by
  intro he
  subst he
  simp [getStateValue] at h

theorem pathExists_iff {fs : WaybarFS} {p : String} :
    pathExists fs p = true ↔ p ∈ fs.layouts.map Prod.fst := by
  simp [pathExists, List.any_eq_true, List.mem_map]

theorem mem_catalog_iff {fs : WaybarFS} {p : String} :
    p ∈ catalogPaths fs ↔ p ∈ fs.layouts.map Prod.fst := by
  unfold catalogPaths sortStrings
  exact (List.perm_insertionSort strLeP _).mem_iff

theorem pathExists_of_mem_catalog {fs : WaybarFS} {p : String}
    (h : p ∈ catalogPaths fs) : pathExists fs p = true :=
  pathExists_iff.mpr (mem_catalog_iff.mp h)

theorem contentOf_of_hashFind {fs : WaybarFS} {cfg lf : String}
    (h : (catalogPaths fs).find? (fun p => contentOf fs p == cfg) = some lf) :
    contentOf fs lf = cfg := by
  have := List.find?_some h
  simpa using this

theorem mem_of_hashFind {fs : WaybarFS} {cfg lf : String}
    (h : (catalogPaths fs).find? (fun p => contentOf fs p == cfg) = some lf) :
    pathExists fs lf = true :=
  pathExists_of_mem_catalog (List.mem_of_find?_eq_some h)

theorem findLayoutByName_exists {fs : WaybarFS} {n l : String}
    (h : findLayoutByName fs n = some l) : pathExists fs l = true :=
  pathExists_of_mem_catalog (List.mem_of_find?_eq_some h)

theorem findLayoutByName_name {fs : WaybarFS} {n l : String}
    (h : findLayoutByName fs n = some l) : basenameNoExt l = n := by
  have := List.find?_some h
  simpa using this

theorem wf_path {fs : WaybarFS} (hwf : WfFS fs) {p : String}
    (hp : pathExists fs p = true) :
    pyStrip p = p ∧ p ≠ "" ∧ p.toList.contains '=' = false ∧
      pyStrip (basenameNoExt p) = basenameNoExt p := by
  rw [pathExists_iff] at hp
  rcases List.mem_map.mp hp with ⟨q, hq, he⟩
  have := hwf q hq
  rw [he] at this
  exact this

@[simp] theorem catalogPaths_update_config (fs : WaybarFS) (x : Option String) :
    catalogPaths { fs with config := x } = catalogPaths fs := rfl

@[simp] theorem catalogPaths_update_state (fs : WaybarFS) (x : Option (List String)) :
    catalogPaths { fs with state := x } = catalogPaths fs := rfl

@[simp] theorem catalogPaths_addBackup (fs : WaybarFS) (c : String) :
    catalogPaths (addBackup fs c) = catalogPaths fs := rfl

@[simp] theorem contentOf_update_config (fs : WaybarFS) (x : Option String) (p : String) :
    contentOf { fs with config := x } p = contentOf fs p := rfl

@[simp] theorem contentOf_update_state (fs : WaybarFS) (x : Option (List String)) (p : String) :
    contentOf { fs with state := x } p = contentOf fs p := rfl

@[simp] theorem contentOf_addBackup (fs : WaybarFS) (c p : String) :
    contentOf (addBackup fs c) p = contentOf fs p := rfl

@[simp] theorem pathExists_update_config (fs : WaybarFS) (x : Option String) (p : String) :
    pathExists { fs with config := x } p = pathExists fs p := rfl

@[simp] theorem pathExists_update_state (fs : WaybarFS) (x : Option (List String)) (p : String) :
    pathExists { fs with state := x } p = pathExists fs p := rfl

@[simp] theorem pathExists_addBackup (fs : WaybarFS) (c p : String) :
    pathExists (addBackup fs c) p = pathExists fs p := rfl

@[simp] theorem findLayoutByName_update_config (fs : WaybarFS) (x : Option String)
    (n : String) : findLayoutByName { fs with config := x } n = findLayoutByName fs n := rfl

@[simp] theorem findLayoutByName_update_state (fs : WaybarFS) (x : Option (List String))
    (n : String) : findLayoutByName { fs with state := x } n = findLayoutByName fs n := rfl

@[simp] theorem findLayoutByName_addBackup (fs : WaybarFS) (c n : String) :
    findLayoutByName (addBackup fs c) n = findLayoutByName fs n := rfl

@[simp] theorem state_addBackup (fs : WaybarFS) (c : String) :
    (addBackup fs c).state = fs.state := rfl

@[simp] theorem config_addBackup (fs : WaybarFS) (c : String) :
    (addBackup fs c).config = fs.config := rfl

@[simp] theorem backups_addBackup (fs : WaybarFS) (c : String) :
    (addBackup fs c).backups = fs.backups ++ [c] := rfl

@[simp] theorem layouts_addBackup (fs : WaybarFS) (c : String) :
    (addBackup fs c).layouts = fs.layouts := rfl

@[simp] theorem styleDirs_addBackup (fs : WaybarFS) (c : String) :
    (addBackup fs c).styleDirs = fs.styleDirs := rfl

theorem legacyHash_match (fs : WaybarFS) (lf : String)
    (hfind : (catalogPaths fs).find?
      (fun p => contentOf fs p == fs.config.getD emptyJson) = some lf) :
    (legacyHash fs).1 = some lf ∧
    (legacyHash fs).2.state = some (setStateValue
      (some (setStateValue fs.state "WAYBAR_LAYOUT_PATH" lf))
      "WAYBAR_LAYOUT_NAME" (basenameNoExt lf)) ∧
    (legacyHash fs).2.config = some (fs.config.getD emptyJson) ∧
    (legacyHash fs).2.backups = fs.backups ∧
    (legacyHash fs).2.layouts = fs.layouts ∧
    (legacyHash fs).2.styleDirs = fs.styleDirs := by
  cases hc : fs.config with
  | none =>
    rw [hc] at hfind
    simp only [Option.getD_none] at hfind
    simp only [legacyHash, hc, Option.isNone_none, if_true, catalogPaths_update_config,
      contentOf_update_config, Option.getD_some, Option.getD_none, hfind]
    exact ⟨trivial, trivial, trivial, trivial, trivial, trivial⟩
  | some c =>
    rw [hc] at hfind
    simp only [Option.getD_some] at hfind
    simp only [legacyHash, hc, Option.isNone_some, Bool.false_eq_true, if_false,
      Option.getD_some, hfind]
    exact ⟨trivial, trivial, trivial, trivial, trivial, trivial⟩

theorem legacyHash_default (fs : WaybarFS) (l0 : String) (rest : List String)
    (hfind : (catalogPaths fs).find?
      (fun p => contentOf fs p == fs.config.getD emptyJson) = none)
    (hcat : catalogPaths fs = l0 :: rest) :
    (legacyHash fs).1 = some l0 ∧
    (legacyHash fs).2.state = some (setStateValue
      (some (setStateValue fs.state "WAYBAR_LAYOUT_PATH" l0))
      "WAYBAR_LAYOUT_NAME" (basenameNoExt l0)) ∧
    (legacyHash fs).2.config = some (contentOf fs l0) ∧
    (legacyHash fs).2.backups = fs.backups ++ [fs.config.getD emptyJson] ∧
    (legacyHash fs).2.layouts = fs.layouts ∧
    (legacyHash fs).2.styleDirs = fs.styleDirs := by
  cases hc : fs.config with
  | none =>
    rw [hc] at hfind
    simp only [Option.getD_none] at hfind
    rw [hcat] at hfind
    simp only [legacyHash, hc, Option.isNone_none, if_true, catalogPaths_update_config,
      contentOf_update_config, Option.getD_some, Option.getD_none, hcat, hfind]
    simp
  | some c =>
    rw [hc] at hfind
    simp only [Option.getD_some] at hfind
    rw [hcat] at hfind
    simp only [legacyHash, hc, Option.isNone_some, Bool.false_eq_true, if_false,
      Option.getD_some, hcat, hfind]
    simp

theorem legacyHash_empty (fs : WaybarFS)
    (hfind : (catalogPaths fs).find?
      (fun p => contentOf fs p == fs.config.getD emptyJson) = none)
    (hcat : catalogPaths fs = []) :
    (legacyHash fs).1 = none ∧
    (legacyHash fs).2.state = fs.state ∧
    (legacyHash fs).2.config = some (fs.config.getD emptyJson) ∧
    (legacyHash fs).2.backups = fs.backups ∧
    (legacyHash fs).2.layouts = fs.layouts ∧
    (legacyHash fs).2.styleDirs = fs.styleDirs := by
  cases hc : fs.config with
  | none =>
    rw [hc] at hfind
    simp only [Option.getD_none] at hfind
    rw [hcat] at hfind
    simp only [legacyHash, hc, Option.isNone_none, if_true, catalogPaths_update_config,
      contentOf_update_config, Option.getD_some, Option.getD_none, hcat, hfind]
    exact ⟨trivial, trivial, trivial, trivial, trivial, trivial⟩
  | some c =>
    rw [hc] at hfind
    simp only [Option.getD_some] at hfind
    rw [hcat] at hfind
    simp only [legacyHash, hc, Option.isNone_some, Bool.false_eq_true, if_false,
      Option.getD_some, hcat, hfind]
    exact ⟨trivial, trivial, trivial, trivial, trivial, trivial⟩

theorem getCurrentByName_hit (fs : WaybarFS) (n l : String)
    (hln : getStateValue fs.state "WAYBAR_LAYOUT_NAME" none = some n) (hne : n ≠ "")
    (hfind : findLayoutByName fs n = some l) :
    getCurrentByName fs = (some l, fs) := by
  simp only [getCurrentByName, hln, if_pos hne, hfind]

theorem getCurrentByName_legacy (fs : WaybarFS)
    (h : ∀ n, getStateValue fs.state "WAYBAR_LAYOUT_NAME" none = some n →
      n = "" ∨ findLayoutByName fs n = none) :
    getCurrentByName fs = legacyHash fs := by
  cases hln : getStateValue fs.state "WAYBAR_LAYOUT_NAME" none with
  | none => simp only [getCurrentByName, hln]
  | some n =>
    rcases h n hln with he | hfind
    · simp only [getCurrentByName, hln, he, ne_eq, not_true_eq_false, if_false]
    · by_cases hne : n = ""
      · simp only [getCurrentByName, hln, hne, ne_eq, not_true_eq_false, if_false]
      · simp only [getCurrentByName, hln, if_pos hne, hfind]

theorem getCurrent_valid (fs : WaybarFS) (p : String)
    (hlp : getStateValue fs.state "WAYBAR_LAYOUT_PATH" none = some p) (hne : p ≠ "")
    (hpe : pathExists fs p = true) :
    getCurrentLayoutFromConfig fs = (some p, fs) := by
  simp only [getCurrentLayoutFromConfig, hlp, if_pos (And.intro hne hpe)]

theorem getCurrent_invalid (fs : WaybarFS)
    (h : ∀ p, getStateValue fs.state "WAYBAR_LAYOUT_PATH" none = some p →
      p = "" ∨ pathExists fs p = false) :
    getCurrentLayoutFromConfig fs = getCurrentByName fs := by
  cases hlp : getStateValue fs.state "WAYBAR_LAYOUT_PATH" none with
  | none => simp only [getCurrentLayoutFromConfig, hlp]
  | some p =>
    have hno : ¬ (p ≠ "" ∧ pathExists fs p = true) := by
      rintro ⟨h1, h2⟩
      rcases h p hlp with he | hpe
      · exact h1 he
      · rw [h2] at hpe
        exact absurd hpe (by simp)
    simp only [getCurrentLayoutFromConfig, hlp, if_neg hno]

theorem ensure_hasLP (fs : WaybarFS) (ls : List String) (hst : fs.state = some ls)
    (hlp : ls.any (fun l => strStartsWith l "WAYBAR_LAYOUT_PATH=") = true) :
    ensureStateFile fs = fs := by
  simp only [ensureStateFile, hst, hlp]
  by_cases h2 : ls.any (fun l => strStartsWith l "WAYBAR_LAYOUT_NAME=") = true <;>
    by_cases h3 : ls.any (fun l => strStartsWith l "WAYBAR_STYLE_PATH=") = true <;>
      simp [h2, h3]

theorem ensure_none_some (fs fs' : WaybarFS) (c : String) (hst : fs.state = none)
    (hgc : getCurrentLayoutFromConfig fs = (some c, fs')) :
    ensureStateFile fs = { fs' with state := some [lpLine c, lnLine (basenameNoExt c),
      spLine (resolve_style_path fs.styleDirs c)] } := by
  simp only [ensureStateFile, hst, hgc]

theorem ensure_none_none (fs fs' : WaybarFS) (hst : fs.state = none)
    (hgc : getCurrentLayoutFromConfig fs = (none, fs')) :
    ensureStateFile fs = { fs' with state := some [] } := by
  simp only [ensureStateFile, hst, hgc]

theorem ensure_noLP_none (fs fs' : WaybarFS) (ls : List String) (hst : fs.state = some ls)
    (hlp : ls.any (fun l => strStartsWith l "WAYBAR_LAYOUT_PATH=") = false)
    (hgc : getCurrentLayoutFromConfig fs = (none, fs')) :
    ensureStateFile fs = fs' := by
  simp only [ensureStateFile, hst, hlp, hgc]
  simp

theorem ensure_noLP_some (fs fs' : WaybarFS) (ls : List String) (c : String)
    (hst : fs.state = some ls)
    (hlp : ls.any (fun l => strStartsWith l "WAYBAR_LAYOUT_PATH=") = false)
    (hgc : getCurrentLayoutFromConfig fs = (some c, fs')) :
    ensureStateFile fs = { fs' with state := some ((fs'.state.getD []) ++
      ([lpLine c] ++
       (if ls.any (fun l => strStartsWith l "WAYBAR_LAYOUT_NAME=") = false
        then [lnLine (basenameNoExt c)] else []) ++
       (if ls.any (fun l => strStartsWith l "WAYBAR_STYLE_PATH=") = false
        then [spLine (resolve_style_path fs.styleDirs c)] else []))) } := by
  simp only [ensureStateFile, hst, hlp, hgc]
  by_cases h2 : ls.any (fun l => strStartsWith l "WAYBAR_LAYOUT_NAME=") = true <;>
    by_cases h3 : ls.any (fun l => strStartsWith l "WAYBAR_STYLE_PATH=") = true <;>
      simp [h2, h3, Bool.eq_false_iff]

theorem stateBranch_none (fs : WaybarFS) (hst : fs.state = none) :
    stateBranch fs = ensureStateFile fs := by
  simp only [stateBranch, hst]

theorem stateBranch_noLP (fs : WaybarFS) (ls : List String) (hst : fs.state = some ls)
    (hlp : getStateValue (some ls) "WAYBAR_LAYOUT_PATH" none = none) :
    stateBranch fs = fs := by
  simp only [stateBranch, hst, hlp]

theorem stateBranch_lpEmpty (fs : WaybarFS) (ls : List String) (hst : fs.state = some ls)
    (hlp : getStateValue (some ls) "WAYBAR_LAYOUT_PATH" none = some "") :
    stateBranch fs = fs := by
  simp only [stateBranch, hst, hlp]
  simp

theorem stateBranch_valid_config (fs : WaybarFS) (ls : List String) (p c : String)
    (hst : fs.state = some ls)
    (hlp : getStateValue (some ls) "WAYBAR_LAYOUT_PATH" none = some p) (hne : p ≠ "")
    (hpe : pathExists fs p = true) (hc : fs.config = some c) :
    (stateBranch fs).state = fs.state ∧
    (stateBranch fs).config = some (contentOf fs p) ∧
    (stateBranch fs).backups = fs.backups ++ (if c = contentOf fs p then [] else [c]) ∧
    (stateBranch fs).layouts = fs.layouts ∧
    (stateBranch fs).styleDirs = fs.styleDirs := by
  simp only [stateBranch, hst, hlp, if_neg hne, hpe, if_true, hc]
  by_cases hcc : c = contentOf fs p <;> simp [hcc, hst]

theorem stateBranch_valid_noconfig (fs : WaybarFS) (ls : List String) (p : String)
    (hst : fs.state = some ls)
    (hlp : getStateValue (some ls) "WAYBAR_LAYOUT_PATH" none = some p) (hne : p ≠ "")
    (hpe : pathExists fs p = true) (hc : fs.config = none) :
    stateBranch fs = fs := by
  simp only [stateBranch, hst, hlp, if_neg hne, hpe, hc]
  simp

theorem stateBranch_stale_noconfig (fs : WaybarFS) (ls : List String) (p : String)
    (hst : fs.state = some ls)
    (hlp : getStateValue (some ls) "WAYBAR_LAYOUT_PATH" none = some p) (hne : p ≠ "")
    (hpe : pathExists fs p = false) (hc : fs.config = none) :
    stateBranch fs = fs := by
  simp only [stateBranch, hst, hlp, if_neg hne, hpe, Bool.false_eq_true, if_false, hc]

theorem stateBranch_stale_hit (fs : WaybarFS) (ls : List String) (p c n l : String)
    (hst : fs.state = some ls)
    (hlp : getStateValue (some ls) "WAYBAR_LAYOUT_PATH" none = some p) (hne : p ≠ "")
    (hpe : pathExists fs p = false) (hc : fs.config = some c)
    (hln : getStateValue (some ls) "WAYBAR_LAYOUT_NAME" none = some n) (hnne : n ≠ "")
    (hfind : findLayoutByName fs n = some l) :
    (stateBranch fs).state = some (setStateValue (some ls) "WAYBAR_LAYOUT_PATH" l) ∧
    (stateBranch fs).config = some (contentOf fs l) ∧
    (stateBranch fs).backups = fs.backups ++ (if c = contentOf fs l then [] else [c]) ∧
    (stateBranch fs).layouts = fs.layouts ∧
    (stateBranch fs).styleDirs = fs.styleDirs := by
  simp only [stateBranch, hst, hlp, if_neg hne, hpe, Bool.false_eq_true, if_false, hc, hln,
    if_neg hnne, hfind]
  by_cases hcc : c = contentOf fs l <;> simp [hcc, hst]

theorem stateBranch_stale_miss (fs : WaybarFS) (ls : List String) (p c : String)
    (hst : fs.state = some ls)
    (hlp : getStateValue (some ls) "WAYBAR_LAYOUT_PATH" none = some p) (hne : p ≠ "")
    (hpe : pathExists fs p = false) (hc : fs.config = some c)
    (h : ∀ n, getStateValue (some ls) "WAYBAR_LAYOUT_NAME" none = some n →
      n = "" ∨ findLayoutByName fs n = none) :
    stateBranch fs = fs := by
  cases hln : getStateValue (some ls) "WAYBAR_LAYOUT_NAME" none with
  | none =>
    simp only [stateBranch, hst, hlp, if_neg hne, hpe, Bool.false_eq_true, if_false, hc, hln]
  | some n =>
    rcases h n hln with he | hfind
    · simp only [stateBranch, hst, hlp, if_neg hne, hpe, Bool.false_eq_true, if_false, hc,
        hln, he]
      simp
    · by_cases hnne : n = ""
      · simp only [stateBranch, hst, hlp, if_neg hne, hpe, Bool.false_eq_true, if_false, hc,
          hln, hnne]
        simp
      · simp only [stateBranch, hst, hlp, if_neg hne, hpe, Bool.false_eq_true, if_false, hc,
          hln, if_neg hnne, hfind]

theorem pathExists_congr {a b : WaybarFS} (h : a.layouts = b.layouts) (p : String) :
    pathExists a p = pathExists b p := by
  unfold pathExists
  rw [h]

theorem contentOf_congr {a b : WaybarFS} (h : a.layouts = b.layouts) (p : String) :
    contentOf a p = contentOf b p := by
  unfold contentOf
  rw [h]

theorem catalogPaths_congr {a b : WaybarFS} (h : a.layouts = b.layouts) :
    catalogPaths a = catalogPaths b := by
  unfold catalogPaths
  rw [h]

theorem findLayoutByName_congr {a b : WaybarFS} (h : a.layouts = b.layouts) (n : String) :
    findLayoutByName a n = findLayoutByName b n := by
  unfold findLayoutByName
  rw [catalogPaths_congr h]

theorem any_ne_nil {ls : List String} {p : String → Bool} (h : ls.any p = true) :
    ls ≠ [] := by
  intro he
  subst he
  simp at h

/-! # Claim C1: drift repair -/

/-- The full reconciliation run in the valid-recorded-path case: drift is
archived exactly once, the config is overwritten with the layout content,
and the state file is untouched. -/
theorem reconcile_valid_run (fs : WaybarFS) (p c : String)
    (hlp : getStateValue fs.state "WAYBAR_LAYOUT_PATH" none = some p) (hne : p ≠ "")
    (hpe : pathExists fs p = true) (hc : fs.config = some c) :
    (c ≠ contentOf fs p → (reconcile fs).backups = fs.backups ++ [c]) ∧
    (c = contentOf fs p → (reconcile fs).backups = fs.backups) ∧
    (reconcile fs).config = some (contentOf fs p) ∧
    (reconcile fs).state = fs.state := by
  cases hst : fs.state with
  | none => rw [hst] at hlp; exact absurd hlp (by simp [getStateValue])
  | some ls =>
  rw [hst] at hlp
  have hany : ls.any (fun l => strStartsWith l "WAYBAR_LAYOUT_PATH=") = true :=
    anyKey_of_get hlp
  obtain ⟨e_state, e_config, e_back, e_lay, e_sty⟩ :=
    stateBranch_valid_config fs ls p c hst hlp hne hpe hc
  have hnn : ¬ ((stateBranch fs).state = none ∨ (stateBranch fs).state = some []) := by
    rw [e_state, hst]
    rintro (h | h)
    · exact absurd h (by simp)
    · exact any_ne_nil hany (by injection h)
  have hgc : getCurrentLayoutFromConfig (stateBranch fs) = (some p, stateBranch fs) :=
    getCurrent_valid (stateBranch fs) p (by rw [e_state, hst]; exact hlp) hne
      (by rw [pathExists_congr e_lay]; exact hpe)
  have hens : ensureStateFile (stateBranch fs) = stateBranch fs :=
    ensure_hasLP (stateBranch fs) ls (by rw [e_state, hst]) hany
  have hrec : reconcile fs = stateBranch fs := by
    simp only [reconcile, if_neg hnn, hgc, hens]
  rw [hrec, e_back, e_config, e_state]
  refine ⟨?_, ?_, rfl, hst⟩
  · intro hcc
    rw [if_neg hcc]
  · intro hcc
    rw [if_pos hcc, List.append_nil]

/-- C1: when the recorded WAYBAR_LAYOUT_PATH names an existing layout and
the live config exists, reconciliation archives the config into exactly one
new backup precisely when its content hash differs from the layout, and in
either case overwrites the live config with the recorded layout content;
with equal hashes no backup is created.  The state record is not touched. -/
theorem C1_drift_repair (fs : WaybarFS) (p c : String)
    (hlp : getStateValue fs.state "WAYBAR_LAYOUT_PATH" none = some p) (hne : p ≠ "")
    (hpe : pathExists fs p = true) (hc : fs.config = some c) :
    (c ≠ contentOf fs p → (reconcile fs).backups = fs.backups ++ [c]) ∧
    (c = contentOf fs p → (reconcile fs).backups = fs.backups) ∧
    (reconcile fs).config = some (contentOf fs p) ∧
    (reconcile fs).state = fs.state :=
  reconcile_valid_run fs p c hlp hne hpe hc

/-- C1 witness: a drifted live config is archived once and overwritten with
the recorded layout. -/
theorem C1_drift_repair_witness :
    ("X" ≠ contentOf waybarFixtureD "L/a.jsonc" →
      (reconcile waybarFixtureD).backups = waybarFixtureD.backups ++ ["X"]) ∧
    ("X" = contentOf waybarFixtureD "L/a.jsonc" →
      (reconcile waybarFixtureD).backups = waybarFixtureD.backups) ∧
    (reconcile waybarFixtureD).config = some (contentOf waybarFixtureD "L/a.jsonc") ∧
    (reconcile waybarFixtureD).state = waybarFixtureD.state :=
  C1_drift_repair waybarFixtureD "L/a.jsonc" "X" (by decide) (by decide) (by decide)
    (by decide)

theorem spKey_noEq : '=' ∉ ("WAYBAR_STYLE_PATH" : String).toList := by decide

theorem key_split_LP : ("WAYBAR_LAYOUT_PATH=" : String) = "WAYBAR_LAYOUT_PATH" ++ "=" := by
  decide

theorem key_split_LN : ("WAYBAR_LAYOUT_NAME=" : String) = "WAYBAR_LAYOUT_NAME" ++ "=" := by
  decide

theorem key_split_SP : ("WAYBAR_STYLE_PATH=" : String) = "WAYBAR_STYLE_PATH" ++ "=" := by
  decide

theorem lpLine_eq (v : String) : lpLine v = "WAYBAR_LAYOUT_PATH" ++ "=" ++ v := by
  simp only [lpLine, key_split_LP]

theorem lnLine_eq (v : String) : lnLine v = "WAYBAR_LAYOUT_NAME" ++ "=" ++ v := by
  simp only [lnLine, key_split_LN]

theorem spLine_eq (v : String) : spLine v = "WAYBAR_STYLE_PATH" ++ "=" ++ v := by
  simp only [spLine, key_split_SP]

theorem line_other_key {k1 k2 : String} (v : String) (hk1 : '=' ∉ k1.toList)
    (hk2 : '=' ∉ k2.toList) (hne : k1 ≠ k2) :
    strStartsWith (k2 ++ "=" ++ v) (k1 ++ "=") = false :=
  strStartsWith_line_ne hk1 hk2 hne (strStartsWith_key k2 v)

theorem getStateValue_cons_hit {k v : String} {t : List String} (hk : '=' ∉ k.toList) :
    getStateValue (some ((k ++ "=" ++ v) :: t)) k none = some (pyStrip v) := by
  simp only [getStateValue,
    @List.find?_cons_of_pos String (fun l => strStartsWith l (k ++ "=")) (k ++ "=" ++ v) t
      (strStartsWith_key k v), afterFirstEq_key hk]

theorem getStateValue_cons_skip {x : String} {t : List String} {k : String}
    {d : Option String} (h : strStartsWith x (k ++ "=") = false) :
    getStateValue (some (x :: t)) k d = getStateValue (some t) k d := by
  simp only [getStateValue,
    @List.find?_cons_of_neg String (fun l => strStartsWith l (k ++ "=")) x t (by simp [h])]

theorem read_three_lp (a b c : String) :
    getStateValue (some [lpLine a, lnLine b, spLine c]) "WAYBAR_LAYOUT_PATH" none =
      some (pyStrip a) := by
  rw [lpLine_eq]
  exact getStateValue_cons_hit lpKey_noEq

theorem read_three_ln (a b c : String) :
    getStateValue (some [lpLine a, lnLine b, spLine c]) "WAYBAR_LAYOUT_NAME" none =
      some (pyStrip b) := by
  rw [lpLine_eq, lnLine_eq]
  rw [getStateValue_cons_skip (line_other_key a lnKey_noEq lpKey_noEq (by decide))]
  exact getStateValue_cons_hit lnKey_noEq

theorem anyLP_three (a b c : String) :
    [lpLine a, lnLine b, spLine c].any
      (fun l => strStartsWith l "WAYBAR_LAYOUT_PATH=") = true := by
  simp only [List.any_cons, Bool.or_eq_true]
  left
  rw [lpLine_eq, key_split_LP]
  exact strStartsWith_key _ _

theorem getCurrent_stateNone (fs : WaybarFS) (hst : fs.state = none) :
    getCurrentLayoutFromConfig fs = legacyHash fs := by
  have h1 : ∀ p, getStateValue fs.state "WAYBAR_LAYOUT_PATH" none = some p →
      p = "" ∨ pathExists fs p = false := by
    rw [hst]
    intro p hp
    exact absurd hp (by simp [getStateValue])
  have h2 : ∀ n, getStateValue fs.state "WAYBAR_LAYOUT_NAME" none = some n →
      n = "" ∨ findLayoutByName fs n = none := by
    rw [hst]
    intro n hn
    exact absurd hn (by simp [getStateValue])
  rw [getCurrent_invalid fs h1, getCurrentByName_legacy fs h2]

/-! # Claim C2: absent-state recovery -/

/-- C2: with no state record and a non-empty catalog, reconciliation either
finds a cataloged layout whose content hash matches the live config (the
config as found, or the empty object the engine creates when it was absent)
and records its path and derived name, or, with no hash match, records the
first cataloged layout and copies it over the live config; in both cases the
resulting live config content equals the content of the layout recorded
under WAYBAR_LAYOUT_PATH. -/
theorem C2_absent_state (fs : WaybarFS) (hwf : WfFS fs) (hst : fs.state = none)
    (l0 : String) (rest : List String) (hcat : catalogPaths fs = l0 :: rest) :
    (∀ lf, (catalogPaths fs).find?
        (fun p => contentOf fs p == fs.config.getD emptyJson) = some lf →
      getStateValue (reconcile fs).state "WAYBAR_LAYOUT_PATH" none = some lf ∧
      getStateValue (reconcile fs).state "WAYBAR_LAYOUT_NAME" none =
        some (basenameNoExt lf) ∧
      (reconcile fs).config = some (fs.config.getD emptyJson)) ∧
    ((catalogPaths fs).find?
        (fun p => contentOf fs p == fs.config.getD emptyJson) = none →
      getStateValue (reconcile fs).state "WAYBAR_LAYOUT_PATH" none = some l0 ∧
      getStateValue (reconcile fs).state "WAYBAR_LAYOUT_NAME" none =
        some (basenameNoExt l0) ∧
      (reconcile fs).config = some (contentOf fs l0)) ∧
    (∀ p, getStateValue (reconcile fs).state "WAYBAR_LAYOUT_PATH" none = some p →
      (reconcile fs).config = some (contentOf fs p)) := by
  have hgcfs : getCurrentLayoutFromConfig fs = legacyHash fs := getCurrent_stateNone fs hst
  have hsb : stateBranch fs = ensureStateFile fs := stateBranch_none fs hst
  cases hfind : (catalogPaths fs).find?
      (fun p => contentOf fs p == fs.config.getD emptyJson) with
  | some lf =>
    obtain ⟨m1, m2, m3, m4, m5, m6⟩ := legacyHash_match fs lf hfind
    have hpair : getCurrentLayoutFromConfig fs = (some lf, (legacyHash fs).2) := by
      rw [hgcfs]
      rw [show legacyHash fs = ((legacyHash fs).1, (legacyHash fs).2) from rfl, m1]
    have hens : ensureStateFile fs = { (legacyHash fs).2 with
        state := some [lpLine lf, lnLine (basenameNoExt lf),
          spLine (resolve_style_path fs.styleDirs lf)] } :=
      ensure_none_some fs ((legacyHash fs).2) lf hst hpair
    have hpe_lf : pathExists fs lf = true := mem_of_hashFind hfind
    obtain ⟨hw1, hw2, hw3, hw4⟩ := wf_path hwf hpe_lf
    have hstate1 : (ensureStateFile fs).state = some [lpLine lf, lnLine (basenameNoExt lf),
        spLine (resolve_style_path fs.styleDirs lf)] := by rw [hens]
    have hlay1 : (ensureStateFile fs).layouts = fs.layouts := by rw [hens]; exact m5
    have hcfg1 : (ensureStateFile fs).config = some (fs.config.getD emptyJson) := by
      rw [hens]; exact m3
    have hread_lp : getStateValue (ensureStateFile fs).state "WAYBAR_LAYOUT_PATH" none =
        some lf := by rw [hstate1, read_three_lp, hw1]
    have hread_ln : getStateValue (ensureStateFile fs).state "WAYBAR_LAYOUT_NAME" none =
        some (basenameNoExt lf) := by rw [hstate1, read_three_ln, hw4]
    have hnn : ¬ ((ensureStateFile fs).state = none ∨
        (ensureStateFile fs).state = some []) := by
      rw [hstate1]
      rintro (h | h) <;> simp at h
    have hgc2 : getCurrentLayoutFromConfig (ensureStateFile fs) =
        (some lf, ensureStateFile fs) :=
      getCurrent_valid _ lf hread_lp hw2 (by rw [pathExists_congr hlay1]; exact hpe_lf)
    have hens2 : ensureStateFile (ensureStateFile fs) = ensureStateFile fs :=
      ensure_hasLP _ _ hstate1 (anyLP_three _ _ _)
    have hrec : reconcile fs = ensureStateFile fs := by
      simp only [reconcile, hsb, if_neg hnn, hgc2, hens2]
    refine ⟨?_, ?_, ?_⟩
    · intro lf' hfind'
      injection hfind' with he
      subst he
      exact ⟨by rw [hrec]; exact hread_lp, by rw [hrec]; exact hread_ln,
        by rw [hrec]; exact hcfg1⟩
    · intro hclash
      exact absurd hclash (by simp)
    · intro p hp
      rw [hrec, hread_lp] at hp
      injection hp with he
      subst he
      rw [contentOf_of_hashFind hfind, hrec]
      exact hcfg1
  | none =>
    obtain ⟨m1, m2, m3, m4, m5, m6⟩ := legacyHash_default fs l0 rest hfind hcat
    have hpair : getCurrentLayoutFromConfig fs = (some l0, (legacyHash fs).2) := by
      rw [hgcfs]
      rw [show legacyHash fs = ((legacyHash fs).1, (legacyHash fs).2) from rfl, m1]
    have hens : ensureStateFile fs = { (legacyHash fs).2 with
        state := some [lpLine l0, lnLine (basenameNoExt l0),
          spLine (resolve_style_path fs.styleDirs l0)] } :=
      ensure_none_some fs ((legacyHash fs).2) l0 hst hpair
    have hpe_l0 : pathExists fs l0 = true :=
      pathExists_of_mem_catalog (hcat ▸ List.mem_cons_self l0 rest)
    obtain ⟨hw1, hw2, hw3, hw4⟩ := wf_path hwf hpe_l0
    have hstate1 : (ensureStateFile fs).state = some [lpLine l0, lnLine (basenameNoExt l0),
        spLine (resolve_style_path fs.styleDirs l0)] := by rw [hens]
    have hlay1 : (ensureStateFile fs).layouts = fs.layouts := by rw [hens]; exact m5
    have hcfg1 : (ensureStateFile fs).config = some (contentOf fs l0) := by
      rw [hens]; exact m3
    have hread_lp : getStateValue (ensureStateFile fs).state "WAYBAR_LAYOUT_PATH" none =
        some l0 := by rw [hstate1, read_three_lp, hw1]
    have hread_ln : getStateValue (ensureStateFile fs).state "WAYBAR_LAYOUT_NAME" none =
        some (basenameNoExt l0) := by rw [hstate1, read_three_ln, hw4]
    have hnn : ¬ ((ensureStateFile fs).state = none ∨
        (ensureStateFile fs).state = some []) := by
      rw [hstate1]
      rintro (h | h) <;> simp at h
    have hgc2 : getCurrentLayoutFromConfig (ensureStateFile fs) =
        (some l0, ensureStateFile fs) :=
      getCurrent_valid _ l0 hread_lp hw2 (by rw [pathExists_congr hlay1]; exact hpe_l0)
    have hens2 : ensureStateFile (ensureStateFile fs) = ensureStateFile fs :=
      ensure_hasLP _ _ hstate1 (anyLP_three _ _ _)
    have hrec : reconcile fs = ensureStateFile fs := by
      simp only [reconcile, hsb, if_neg hnn, hgc2, hens2]
    refine ⟨?_, ?_, ?_⟩
    · intro lf' hfind'
      exact absurd hfind' (by simp)
    · intro _
      exact ⟨by rw [hrec]; exact hread_lp, by rw [hrec]; exact hread_ln,
        by rw [hrec]; exact hcfg1⟩
    · intro p hp
      rw [hrec, hread_lp] at hp
      injection hp with he
      subst he
      rw [hrec]
      exact hcfg1

/-- C2 witness: state record absent, config absent, three layouts — the
first cataloged layout is recorded and copied. -/
theorem C2_absent_state_witness :
    (∀ lf, (catalogPaths waybarFixtureA).find?
        (fun p => contentOf waybarFixtureA p == waybarFixtureA.config.getD emptyJson) =
          some lf →
      getStateValue (reconcile waybarFixtureA).state "WAYBAR_LAYOUT_PATH" none = some lf ∧
      getStateValue (reconcile waybarFixtureA).state "WAYBAR_LAYOUT_NAME" none =
        some (basenameNoExt lf) ∧
      (reconcile waybarFixtureA).config = some (waybarFixtureA.config.getD emptyJson)) ∧
    ((catalogPaths waybarFixtureA).find?
        (fun p => contentOf waybarFixtureA p == waybarFixtureA.config.getD emptyJson) =
          none →
      getStateValue (reconcile waybarFixtureA).state "WAYBAR_LAYOUT_PATH" none =
        some "L/a.jsonc" ∧
      getStateValue (reconcile waybarFixtureA).state "WAYBAR_LAYOUT_NAME" none =
        some (basenameNoExt "L/a.jsonc") ∧
      (reconcile waybarFixtureA).config = some (contentOf waybarFixtureA "L/a.jsonc")) ∧
    (∀ p, getStateValue (reconcile waybarFixtureA).state "WAYBAR_LAYOUT_PATH" none =
        some p →
      (reconcile waybarFixtureA).config = some (contentOf waybarFixtureA p)) :=
  C2_absent_state waybarFixtureA (by decide) (by decide) "L/a.jsonc"
    ["L/b.jsonc", "L/c.jsonc"] (by decide)

/-! # Claim C6: double identity failure -/

theorem read_lp_setset (st : Option (List String)) (lf nm : String) :
    getStateValue (some (setStateValue (some (setStateValue st "WAYBAR_LAYOUT_PATH" lf))
      "WAYBAR_LAYOUT_NAME" nm)) "WAYBAR_LAYOUT_PATH" none = some (pyStrip lf) := by
  rw [getStateValue_set_other lpKey_noEq lnKey_noEq (by decide),
    getStateValue_set_self lpKey_noEq]

/-- C6, counterexample: a state whose recorded layout path does not exist
and whose recorded name matches no cataloged layout.  The claim demands a
fatal non-zero exit; the run completes normally (the source only logs the
failure), so the claim is false as stated. -/
theorem C6_counterexample :
    getStateValue waybarFixtureC.state "WAYBAR_LAYOUT_PATH" none = some "/gone.jsonc" ∧
    pathExists waybarFixtureC "/gone.jsonc" = false ∧
    getStateValue waybarFixtureC.state "WAYBAR_LAYOUT_NAME" none = some "gone" ∧
    findLayoutByName waybarFixtureC "gone" = none ∧
    (reconcileRun waybarFixtureC).isOk = true := by
  decide

/-- C6, amended: when the recorded path does not exist and the recorded name
resolves to no cataloged layout, the run does not exit non-zero — the engine
logs the failure and continues, and the subsequent current-layout pass
self-heals WAYBAR_LAYOUT_PATH through the hash fallback (to the hash-matching
layout, or else the first cataloged layout) whenever the catalog is
non-empty. -/
theorem C6_stale_continues (fs : WaybarFS) (hwf : WfFS fs) (p c : String)
    (hlp : getStateValue fs.state "WAYBAR_LAYOUT_PATH" none = some p) (hne : p ≠ "")
    (hpe : pathExists fs p = false) (hc : fs.config = some c)
    (hn : ∀ n, getStateValue fs.state "WAYBAR_LAYOUT_NAME" none = some n →
      n = "" ∨ findLayoutByName fs n = none)
    (l0 : String) (rest : List String) (hcat : catalogPaths fs = l0 :: rest) :
    reconcileRun fs = Except.ok (reconcile fs) ∧
    ∃ q, getStateValue (reconcile fs).state "WAYBAR_LAYOUT_PATH" none = some q ∧
      pathExists fs q = true := by
  refine ⟨rfl, ?_⟩
  cases hst : fs.state with
  | none => rw [hst] at hlp; exact absurd hlp (by simp [getStateValue])
  | some ls =>
  rw [hst] at hlp hn
  have hany : ls.any (fun l => strStartsWith l "WAYBAR_LAYOUT_PATH=") = true := by
    rw [key_split_LP]
    exact anyKey_of_get hlp
  have hsb : stateBranch fs = fs :=
    stateBranch_stale_miss fs ls p c hst hlp hne hpe hc hn
  have hinv : ∀ p', getStateValue fs.state "WAYBAR_LAYOUT_PATH" none = some p' →
      p' = "" ∨ pathExists fs p' = false := by
    rw [hst]
    intro p' hp'
    rw [hlp] at hp'
    injection hp' with he
    subst he
    right
    exact hpe
  have hgcfs : getCurrentLayoutFromConfig fs = legacyHash fs := by
    rw [getCurrent_invalid fs hinv, getCurrentByName_legacy fs (by rw [hst]; exact hn)]
  have hnn : ¬ (fs.state = none ∨ fs.state = some []) := by
    rw [hst]
    rintro (h | h)
    · exact absurd h (by simp)
    · exact any_ne_nil hany (by injection h)
  cases hfind : (catalogPaths fs).find?
      (fun q => contentOf fs q == fs.config.getD emptyJson) with
  | some lf =>
    obtain ⟨m1, m2, m3, m4, m5, m6⟩ := legacyHash_match fs lf hfind
    have hpe_lf : pathExists fs lf = true := mem_of_hashFind hfind
    obtain ⟨hw1, hw2, hw3, hw4⟩ := wf_path hwf hpe_lf
    have hread : getStateValue (legacyHash fs).2.state "WAYBAR_LAYOUT_PATH" none =
        some lf := by
      rw [m2, read_lp_setset, hw1]
    have hanyL : ∀ ls2, (legacyHash fs).2.state = some ls2 →
        ls2.any (fun l => strStartsWith l "WAYBAR_LAYOUT_PATH=") = true := by
      intro ls2 hls2
      rw [hls2] at hread
      rw [key_split_LP]
      exact anyKey_of_get hread
    have hens : ensureStateFile (legacyHash fs).2 = (legacyHash fs).2 := by
      cases hls2 : (legacyHash fs).2.state with
      | none => rw [m2] at hls2; exact absurd hls2 (by simp)
      | some ls2 => exact ensure_hasLP _ ls2 hls2 (hanyL ls2 hls2)
    have hrec : reconcile fs = (legacyHash fs).2 := by
      simp only [reconcile, hsb, if_neg hnn, hgcfs, hens]
    exact ⟨lf, by rw [hrec]; exact hread, hpe_lf⟩
  | none =>
    obtain ⟨m1, m2, m3, m4, m5, m6⟩ := legacyHash_default fs l0 rest hfind hcat
    have hpe_l0 : pathExists fs l0 = true :=
      pathExists_of_mem_catalog (hcat ▸ List.mem_cons_self l0 rest)
    obtain ⟨hw1, hw2, hw3, hw4⟩ := wf_path hwf hpe_l0
    have hread : getStateValue (legacyHash fs).2.state "WAYBAR_LAYOUT_PATH" none =
        some l0 := by
      rw [m2, read_lp_setset, hw1]
    have hanyL : ∀ ls2, (legacyHash fs).2.state = some ls2 →
        ls2.any (fun l => strStartsWith l "WAYBAR_LAYOUT_PATH=") = true := by
      intro ls2 hls2
      rw [hls2] at hread
      rw [key_split_LP]
      exact anyKey_of_get hread
    have hens : ensureStateFile (legacyHash fs).2 = (legacyHash fs).2 := by
      cases hls2 : (legacyHash fs).2.state with
      | none => rw [m2] at hls2; exact absurd hls2 (by simp)
      | some ls2 => exact ensure_hasLP _ ls2 hls2 (hanyL ls2 hls2)
    have hrec : reconcile fs = (legacyHash fs).2 := by
      simp only [reconcile, hsb, if_neg hnn, hgcfs, hens]
    exact ⟨l0, by rw [hrec]; exact hread, hpe_l0⟩

/-- C6 witness: the amended behavior at the counterexample state — the run
completes and the recorded path is repaired to an existing layout. -/
theorem C6_stale_continues_witness :
    reconcileRun waybarFixtureC = Except.ok (reconcile waybarFixtureC) ∧
    ∃ q, getStateValue (reconcile waybarFixtureC).state "WAYBAR_LAYOUT_PATH" none =
      some q ∧ pathExists waybarFixtureC q = true :=
  C6_stale_continues waybarFixtureC (by decide) "/gone.jsonc" "X" (by decide) (by decide)
    (by decide) (by decide)
    (by
      intro n hn
      have hg : getStateValue waybarFixtureC.state "WAYBAR_LAYOUT_NAME" none =
          some "gone" := by decide
      rw [hg] at hn
      injection hn with he
      subst he
      right
      decide)
    "L/a.jsonc" [] (by decide)

/-! # Lemmas toward reconciliation idempotence (claim C7) -/

theorem getStateValue_none_iff {ls : List String} {k : String} :
    getStateValue (some ls) k none = none ↔
      ls.any (fun l => strStartsWith l (k ++ "=")) = false := by
  constructor
  · intro h
    rw [List.any_eq_false]
    intro x hx hpx
    have hf : ls.find? (fun l => strStartsWith l (k ++ "=")) ≠ none := by
      intro hn
      rw [List.find?_eq_none] at hn
      exact hn x hx hpx
    simp only [getStateValue] at h
    cases hfe : ls.find? (fun l => strStartsWith l (k ++ "=")) with
    | none => exact hf hfe
    | some l => rw [hfe] at h; exact absurd h (by simp)
  · intro h
    exact getStateValue_no_line (fun l hl => Bool.eq_false_iff.mpr (List.any_eq_false.mp h l hl))

theorem layouts_nil_of_catalog_nil {s : WaybarFS} (h : catalogPaths s = []) :
    s.layouts = [] := by
  have hperm : List.Perm (catalogPaths s) (s.layouts.map Prod.fst) :=
    List.perm_insertionSort strLeP _
  rw [h] at hperm
  have := hperm.symm.eq_nil
  exact List.map_eq_nil_iff.mp this

theorem pathExists_false_of_catalog_nil {s : WaybarFS} (h : catalogPaths s = [])
    (p : String) : pathExists s p = false := by
  unfold pathExists
  rw [layouts_nil_of_catalog_nil h]
  rfl

theorem findLayoutByName_none_of_catalog_nil {s : WaybarFS} (h : catalogPaths s = [])
    (n : String) : findLayoutByName s n = none := by
  unfold findLayoutByName
  rw [h]
  rfl

theorem getStateValue_append_right {ls l2 : List String} {k : String} {d : Option String}
    (h : ∀ x ∈ ls, strStartsWith x (k ++ "=") = false) :
    getStateValue (some (ls ++ l2)) k d = getStateValue (some l2) k d := by
  have hnone : ls.find? (fun l => strStartsWith l (k ++ "=")) = none := by
    rw [List.find?_eq_none]
    intro x hx
    rw [h x hx]
    exact fun hc => nomatch hc
  simp only [getStateValue, find?_append_none hnone]

theorem legacyHash_layouts (t : WaybarFS) : (legacyHash t).2.layouts = t.layouts := by
  cases hfind : (catalogPaths t).find?
      (fun p => contentOf t p == t.config.getD emptyJson) with
  | some lf => exact (legacyHash_match t lf hfind).2.2.2.2.1
  | none =>
    cases hcat : catalogPaths t with
    | nil => exact (legacyHash_empty t hfind hcat).2.2.2.2.1
    | cons l0 rest => exact (legacyHash_default t l0 rest hfind hcat).2.2.2.2.1

theorem legacyHash_styleDirs (t : WaybarFS) : (legacyHash t).2.styleDirs = t.styleDirs := by
  cases hfind : (catalogPaths t).find?
      (fun p => contentOf t p == t.config.getD emptyJson) with
  | some lf => exact (legacyHash_match t lf hfind).2.2.2.2.2
  | none =>
    cases hcat : catalogPaths t with
    | nil => exact (legacyHash_empty t hfind hcat).2.2.2.2.2
    | cons l0 rest => exact (legacyHash_default t l0 rest hfind hcat).2.2.2.2.2

theorem legacyHash_some_exists (t : WaybarFS) (c : String)
    (h : (legacyHash t).1 = some c) : pathExists t c = true := by
  cases hfind : (catalogPaths t).find?
      (fun p => contentOf t p == t.config.getD emptyJson) with
  | some lf =>
    rw [(legacyHash_match t lf hfind).1] at h
    injection h with he
    subst he
    exact mem_of_hashFind hfind
  | none =>
    cases hcat : catalogPaths t with
    | nil =>
      rw [(legacyHash_empty t hfind hcat).1] at h
      exact absurd h (by simp)
    | cons l0 rest =>
      rw [(legacyHash_default t l0 rest hfind hcat).1] at h
      injection h with he
      subst he
      exact pathExists_of_mem_catalog (hcat ▸ List.mem_cons_self l0 rest)

theorem byName_fallback_of_read {t : WaybarFS} {n : String}
    (hln : getStateValue t.state "WAYBAR_LAYOUT_NAME" none = some n)
    (h : n = "" ∨ findLayoutByName t n = none) :
    ∀ m, getStateValue t.state "WAYBAR_LAYOUT_NAME" none = some m →
      m = "" ∨ findLayoutByName t m = none := by
  intro m hm
  rw [hln] at hm
  injection hm with he
  subst he
  exact h

theorem byName_fallback_of_none {t : WaybarFS}
    (hln : getStateValue t.state "WAYBAR_LAYOUT_NAME" none = none) :
    ∀ m, getStateValue t.state "WAYBAR_LAYOUT_NAME" none = some m →
      m = "" ∨ findLayoutByName t m = none := by
  intro m hm
  rw [hln] at hm
  exact absurd hm (by simp)

theorem lp_invalid_of_read {t : WaybarFS} {p : String}
    (hlp : getStateValue t.state "WAYBAR_LAYOUT_PATH" none = some p)
    (h : p = "" ∨ pathExists t p = false) :
    ∀ q, getStateValue t.state "WAYBAR_LAYOUT_PATH" none = some q →
      q = "" ∨ pathExists t q = false := by
  intro q hq
  rw [hlp] at hq
  injection hq with he
  subst he
  exact h

theorem lp_invalid_of_none {t : WaybarFS}
    (hlp : getStateValue t.state "WAYBAR_LAYOUT_PATH" none = none) :
    ∀ q, getStateValue t.state "WAYBAR_LAYOUT_PATH" none = some q →
      q = "" ∨ pathExists t q = false := by
  intro q hq
  rw [hlp] at hq
  exact absurd hq (by simp)

theorem getCurrentByName_layouts (t : WaybarFS) :
    (getCurrentByName t).2.layouts = t.layouts := by
  cases hln : getStateValue t.state "WAYBAR_LAYOUT_NAME" none with
  | none =>
    rw [getCurrentByName_legacy t (byName_fallback_of_none hln)]
    exact legacyHash_layouts t
  | some n =>
    by_cases hne : n = ""
    · rw [getCurrentByName_legacy t (byName_fallback_of_read hln (Or.inl hne))]
      exact legacyHash_layouts t
    · cases hfind : findLayoutByName t n with
      | some l => rw [getCurrentByName_hit t n l hln hne hfind]
      | none =>
        rw [getCurrentByName_legacy t (byName_fallback_of_read hln (Or.inr hfind))]
        exact legacyHash_layouts t

theorem getCurrentByName_styleDirs (t : WaybarFS) :
    (getCurrentByName t).2.styleDirs = t.styleDirs := by
  cases hln : getStateValue t.state "WAYBAR_LAYOUT_NAME" none with
  | none =>
    rw [getCurrentByName_legacy t (byName_fallback_of_none hln)]
    exact legacyHash_styleDirs t
  | some n =>
    by_cases hne : n = ""
    · rw [getCurrentByName_legacy t (byName_fallback_of_read hln (Or.inl hne))]
      exact legacyHash_styleDirs t
    · cases hfind : findLayoutByName t n with
      | some l => rw [getCurrentByName_hit t n l hln hne hfind]
      | none =>
        rw [getCurrentByName_legacy t (byName_fallback_of_read hln (Or.inr hfind))]
        exact legacyHash_styleDirs t

theorem getCurrentByName_some_exists (t : WaybarFS) (c : String)
    (h : (getCurrentByName t).1 = some c) : pathExists t c = true := by
  cases hln : getStateValue t.state "WAYBAR_LAYOUT_NAME" none with
  | none =>
    rw [getCurrentByName_legacy t (byName_fallback_of_none hln)] at h
    exact legacyHash_some_exists t c h
  | some n =>
    by_cases hne : n = ""
    · rw [getCurrentByName_legacy t (byName_fallback_of_read hln (Or.inl hne))] at h
      exact legacyHash_some_exists t c h
    · cases hfind : findLayoutByName t n with
      | some l =>
        rw [getCurrentByName_hit t n l hln hne hfind] at h
        injection h with he
        subst he
        exact findLayoutByName_exists hfind
      | none =>
        rw [getCurrentByName_legacy t (byName_fallback_of_read hln (Or.inr hfind))] at h
        exact legacyHash_some_exists t c h

theorem lp_invalid_cases {t : WaybarFS} {p : String}
    (hlp : getStateValue t.state "WAYBAR_LAYOUT_PATH" none = some p)
    (hv : ¬ (p ≠ "" ∧ pathExists t p = true)) :
    ∀ q, getStateValue t.state "WAYBAR_LAYOUT_PATH" none = some q →
      q = "" ∨ pathExists t q = false := by
  apply lp_invalid_of_read hlp
  rcases not_and_or.mp hv with h1 | h2
  · left
    exact not_not.mp h1
  · right
    exact Bool.eq_false_iff.mpr h2

theorem getCurrent_layouts (t : WaybarFS) :
    (getCurrentLayoutFromConfig t).2.layouts = t.layouts := by
  cases hlp : getStateValue t.state "WAYBAR_LAYOUT_PATH" none with
  | none =>
    rw [getCurrent_invalid t (lp_invalid_of_none hlp)]
    exact getCurrentByName_layouts t
  | some p =>
    by_cases hv : p ≠ "" ∧ pathExists t p = true
    · rw [getCurrent_valid t p hlp hv.1 hv.2]
    · rw [getCurrent_invalid t (lp_invalid_cases hlp hv)]
      exact getCurrentByName_layouts t

theorem getCurrent_styleDirs (t : WaybarFS) :
    (getCurrentLayoutFromConfig t).2.styleDirs = t.styleDirs := by
  cases hlp : getStateValue t.state "WAYBAR_LAYOUT_PATH" none with
  | none =>
    rw [getCurrent_invalid t (lp_invalid_of_none hlp)]
    exact getCurrentByName_styleDirs t
  | some p =>
    by_cases hv : p ≠ "" ∧ pathExists t p = true
    · rw [getCurrent_valid t p hlp hv.1 hv.2]
    · rw [getCurrent_invalid t (lp_invalid_cases hlp hv)]
      exact getCurrentByName_styleDirs t

theorem getCurrent_some_exists (t : WaybarFS) (c : String)
    (h : (getCurrentLayoutFromConfig t).1 = some c) : pathExists t c = true := by
  cases hlp : getStateValue t.state "WAYBAR_LAYOUT_PATH" none with
  | none =>
    rw [getCurrent_invalid t (lp_invalid_of_none hlp)] at h
    exact getCurrentByName_some_exists t c h
  | some p =>
    by_cases hv : p ≠ "" ∧ pathExists t p = true
    · rw [getCurrent_valid t p hlp hv.1 hv.2] at h
      injection h with he
      subst he
      exact hv.2
    · rw [getCurrent_invalid t (lp_invalid_cases hlp hv)] at h
      exact getCurrentByName_some_exists t c h

theorem name_miss_of_read {fs : WaybarFS} {st : Option (List String)} {n : String}
    (hln : getStateValue st "WAYBAR_LAYOUT_NAME" none = some n)
    (h : n = "" ∨ findLayoutByName fs n = none) :
    ∀ m, getStateValue st "WAYBAR_LAYOUT_NAME" none = some m →
      m = "" ∨ findLayoutByName fs m = none := by
  intro m hm
  rw [hln] at hm
  injection hm with he
  subst he
  exact h

theorem name_miss_of_none {fs : WaybarFS} {st : Option (List String)}
    (hln : getStateValue st "WAYBAR_LAYOUT_NAME" none = none) :
    ∀ m, getStateValue st "WAYBAR_LAYOUT_NAME" none = some m →
      m = "" ∨ findLayoutByName fs m = none := by
  intro m hm
  rw [hln] at hm
  exact absurd hm (by simp)

theorem WfFS_congr {a b : WaybarFS} (h : a.layouts = b.layouts) (hwf : WfFS b) :
    WfFS a := by
  intro q hq
  exact hwf q (h ▸ hq)

theorem ensure_layouts (t : WaybarFS) : (ensureStateFile t).layouts = t.layouts := by
  have hgl := getCurrent_layouts t
  cases hst : t.state with
  | none =>
    rcases hgc : getCurrentLayoutFromConfig t with ⟨cur, t'⟩
    rw [hgc] at hgl
    cases cur with
    | some c =>
      rw [ensure_none_some t t' c hst hgc]
      exact hgl
    | none =>
      rw [ensure_none_none t t' hst hgc]
      exact hgl
  | some ls =>
    by_cases hlp : ls.any (fun l => strStartsWith l "WAYBAR_LAYOUT_PATH=") = true
    · rw [ensure_hasLP t ls hst hlp]
    · have hlp' : ls.any (fun l => strStartsWith l "WAYBAR_LAYOUT_PATH=") = false :=
        Bool.eq_false_iff.mpr hlp
      rcases hgc : getCurrentLayoutFromConfig t with ⟨cur, t'⟩
      rw [hgc] at hgl
      cases cur with
      | some c =>
        rw [ensure_noLP_some t t' ls c hst hlp' hgc]
        exact hgl
      | none =>
        rw [ensure_noLP_none t t' ls hst hlp' hgc]
        exact hgl

theorem ensure_styleDirs (t : WaybarFS) : (ensureStateFile t).styleDirs = t.styleDirs := by
  have hgl := getCurrent_styleDirs t
  cases hst : t.state with
  | none =>
    rcases hgc : getCurrentLayoutFromConfig t with ⟨cur, t'⟩
    rw [hgc] at hgl
    cases cur with
    | some c =>
      rw [ensure_none_some t t' c hst hgc]
      exact hgl
    | none =>
      rw [ensure_none_none t t' hst hgc]
      exact hgl
  | some ls =>
    by_cases hlp : ls.any (fun l => strStartsWith l "WAYBAR_LAYOUT_PATH=") = true
    · rw [ensure_hasLP t ls hst hlp]
    · have hlp' : ls.any (fun l => strStartsWith l "WAYBAR_LAYOUT_PATH=") = false :=
        Bool.eq_false_iff.mpr hlp
      rcases hgc : getCurrentLayoutFromConfig t with ⟨cur, t'⟩
      rw [hgc] at hgl
      cases cur with
      | some c =>
        rw [ensure_noLP_some t t' ls c hst hlp' hgc]
        exact hgl
      | none =>
        rw [ensure_noLP_none t t' ls hst hlp' hgc]
        exact hgl

theorem stateBranch_layouts (fs : WaybarFS) : (stateBranch fs).layouts = fs.layouts := by
  cases hst : fs.state with
  | none =>
    rw [stateBranch_none fs hst]
    exact ensure_layouts fs
  | some ls =>
    cases hlp : getStateValue (some ls) "WAYBAR_LAYOUT_PATH" none with
    | none => rw [stateBranch_noLP fs ls hst hlp]
    | some p =>
      by_cases hne : p = ""
      · subst hne
        rw [stateBranch_lpEmpty fs ls hst hlp]
      · rcases hpe : pathExists fs p with _ | _
        · cases hc : fs.config with
          | none => rw [stateBranch_stale_noconfig fs ls p hst hlp hne hpe hc]
          | some c =>
            cases hln : getStateValue (some ls) "WAYBAR_LAYOUT_NAME" none with
            | none =>
              rw [stateBranch_stale_miss fs ls p c hst hlp hne hpe hc
                (name_miss_of_none hln)]
            | some n =>
              by_cases hnne : n = ""
              · rw [stateBranch_stale_miss fs ls p c hst hlp hne hpe hc
                  (name_miss_of_read hln (Or.inl hnne))]
              · cases hfind : findLayoutByName fs n with
                | none =>
                  rw [stateBranch_stale_miss fs ls p c hst hlp hne hpe hc
                    (name_miss_of_read hln (Or.inr hfind))]
                | some l =>
                  exact (stateBranch_stale_hit fs ls p c n l hst hlp hne hpe hc hln hnne
                    hfind).2.2.2.1
        · cases hc : fs.config with
          | none => rw [stateBranch_valid_noconfig fs ls p hst hlp hne hpe hc]
          | some c =>
            exact (stateBranch_valid_config fs ls p c hst hlp hne hpe hc).2.2.2.1

theorem stateBranch_styleDirs (fs : WaybarFS) :
    (stateBranch fs).styleDirs = fs.styleDirs := by
  cases hst : fs.state with
  | none =>
    rw [stateBranch_none fs hst]
    exact ensure_styleDirs fs
  | some ls =>
    cases hlp : getStateValue (some ls) "WAYBAR_LAYOUT_PATH" none with
    | none => rw [stateBranch_noLP fs ls hst hlp]
    | some p =>
      by_cases hne : p = ""
      · subst hne
        rw [stateBranch_lpEmpty fs ls hst hlp]
      · rcases hpe : pathExists fs p with _ | _
        · cases hc : fs.config with
          | none => rw [stateBranch_stale_noconfig fs ls p hst hlp hne hpe hc]
          | some c =>
            cases hln : getStateValue (some ls) "WAYBAR_LAYOUT_NAME" none with
            | none =>
              rw [stateBranch_stale_miss fs ls p c hst hlp hne hpe hc
                (name_miss_of_none hln)]
            | some n =>
              by_cases hnne : n = ""
              · rw [stateBranch_stale_miss fs ls p c hst hlp hne hpe hc
                  (name_miss_of_read hln (Or.inl hnne))]
              · cases hfind : findLayoutByName fs n with
                | none =>
                  rw [stateBranch_stale_miss fs ls p c hst hlp hne hpe hc
                    (name_miss_of_read hln (Or.inr hfind))]
                | some l =>
                  exact (stateBranch_stale_hit fs ls p c n l hst hlp hne hpe hc hln hnne
                    hfind).2.2.2.2
        · cases hc : fs.config with
          | none => rw [stateBranch_valid_noconfig fs ls p hst hlp hne hpe hc]
          | some c =>
            exact (stateBranch_valid_config fs ls p c hst hlp hne hpe hc).2.2.2.2

theorem reconcile_layouts (fs : WaybarFS) : (reconcile fs).layouts = fs.layouts := by
  simp only [reconcile]
  by_cases hcond : (stateBranch fs).state = none ∨ (stateBranch fs).state = some []
  · rw [if_pos hcond, ensure_layouts, getCurrent_layouts, ensure_layouts,
      stateBranch_layouts]
  · rw [if_neg hcond, ensure_layouts, getCurrent_layouts, stateBranch_layouts]

theorem reconcile_styleDirs (fs : WaybarFS) :
    (reconcile fs).styleDirs = fs.styleDirs := by
  simp only [reconcile]
  by_cases hcond : (stateBranch fs).state = none ∨ (stateBranch fs).state = some []
  · rw [if_pos hcond, ensure_styleDirs, getCurrent_styleDirs, ensure_styleDirs,
      stateBranch_styleDirs]
  · rw [if_neg hcond, ensure_styleDirs, getCurrent_styleDirs, stateBranch_styleDirs]

theorem nps_of_valid_lp {t : WaybarFS} {q : String}
    (hlp : getStateValue t.state "WAYBAR_LAYOUT_PATH" none = some q)
    (hpe : pathExists t q = true) : NoPendingStale t := by
  intro p c n l hp hne hpf hc hn hnne hf
  rw [hlp] at hp
  injection hp with he
  subst he
  rw [hpe] at hpf
  exact absurd hpf (by simp)

theorem nps_of_noLP {t : WaybarFS}
    (hlp : getStateValue t.state "WAYBAR_LAYOUT_PATH" none = none) :
    NoPendingStale t := by
  intro p c n l hp hne hpf hc hn hnne hf
  rw [hlp] at hp
  exact absurd hp (by simp)

theorem nps_of_lpEmpty {t : WaybarFS}
    (hlp : getStateValue t.state "WAYBAR_LAYOUT_PATH" none = some "") :
    NoPendingStale t := by
  intro p c n l hp hne hpf hc hn hnne hf
  rw [hlp] at hp
  injection hp with he
  exact hne he.symm

theorem nps_of_noconfig {t : WaybarFS} (hc : t.config = none) : NoPendingStale t := by
  intro p c n l hp hne hpf hcc hn hnne hf
  rw [hc] at hcc
  exact absurd hcc (by simp)

theorem nps_of_name_miss {t : WaybarFS}
    (h : ∀ n, getStateValue t.state "WAYBAR_LAYOUT_NAME" none = some n →
      n = "" ∨ findLayoutByName t n = none) : NoPendingStale t := by
  intro p c n l hp hne hpf hc hn hnne hf
  rcases h n hn with he | hfe
  · exact hnne he
  · rw [hfe] at hf
    exact absurd hf (by simp)

theorem getStateValue_append_left {ls l2 : List String} {k : String} {d : Option String}
    (h : ls.any (fun l => strStartsWith l (k ++ "=")) = true) :
    getStateValue (some (ls ++ l2)) k d = getStateValue (some ls) k d := by
  simp only [getStateValue, List.find?_append]
  cases hf : ls.find? (fun l => strStartsWith l (k ++ "=")) with
  | none =>
    rw [List.find?_eq_none] at hf
    rcases List.any_eq_true.mp h with ⟨x, hx, hpx⟩
    exact absurd hpx (hf x hx)
  | some l => rfl

theorem stateBranch_nps (fs : WaybarFS) (hwf : WfFS fs) :
    NoPendingStale (stateBranch fs) ∧ (stateBranch fs).state ≠ none := by
  cases hst : fs.state with
  | none =>
    rw [stateBranch_none fs hst]
    rcases hgc : getCurrentLayoutFromConfig fs with ⟨cur, t'⟩
    have hgl := getCurrent_layouts fs
    rw [hgc] at hgl
    cases cur with
    | some c =>
      rw [ensure_none_some fs t' c hst hgc]
      have hpe : pathExists fs c = true := getCurrent_some_exists fs c (by rw [hgc])
      obtain ⟨hw1, hw2, hw3, hw4⟩ := wf_path hwf hpe
      constructor
      · apply nps_of_valid_lp (q := c)
        · show getStateValue (some [lpLine c, lnLine (basenameNoExt c),
            spLine (resolve_style_path fs.styleDirs c)]) "WAYBAR_LAYOUT_PATH" none = some c
          rw [read_three_lp, hw1]
        · show pathExists { t' with state := some [lpLine c, lnLine (basenameNoExt c),
            spLine (resolve_style_path fs.styleDirs c)] } c = true
          rw [pathExists_congr (a := { t' with state := some [lpLine c,
            lnLine (basenameNoExt c), spLine (resolve_style_path fs.styleDirs c)] })
            (b := fs) hgl]
          exact hpe
      · intro h
        exact absurd h (by simp)
    | none =>
      rw [ensure_none_none fs t' hst hgc]
      constructor
      · exact nps_of_noLP (by simp [getStateValue])
      · intro h
        exact absurd h (by simp)
  | some ls =>
    cases hlp : getStateValue (some ls) "WAYBAR_LAYOUT_PATH" none with
    | none =>
      rw [stateBranch_noLP fs ls hst hlp]
      exact ⟨nps_of_noLP (by rw [hst]; exact hlp), by rw [hst]; simp⟩
    | some p =>
      by_cases hne : p = ""
      · subst hne
        rw [stateBranch_lpEmpty fs ls hst hlp]
        exact ⟨nps_of_lpEmpty (by rw [hst]; exact hlp), by rw [hst]; simp⟩
      · rcases hpe : pathExists fs p with _ | _
        · cases hc : fs.config with
          | none =>
            rw [stateBranch_stale_noconfig fs ls p hst hlp hne hpe hc]
            exact ⟨nps_of_noconfig hc, by rw [hst]; simp⟩
          | some c =>
            cases hln : getStateValue (some ls) "WAYBAR_LAYOUT_NAME" none with
            | none =>
              rw [stateBranch_stale_miss fs ls p c hst hlp hne hpe hc
                (name_miss_of_none hln)]
              refine ⟨nps_of_name_miss ?_, by rw [hst]; simp⟩
              rw [hst]
              exact name_miss_of_none hln
            | some n =>
              by_cases hnne : n = ""
              · rw [stateBranch_stale_miss fs ls p c hst hlp hne hpe hc
                  (name_miss_of_read hln (Or.inl hnne))]
                refine ⟨nps_of_name_miss ?_, by rw [hst]; simp⟩
                rw [hst]
                exact name_miss_of_read hln (Or.inl hnne)
              · cases hfind : findLayoutByName fs n with
                | none =>
                  rw [stateBranch_stale_miss fs ls p c hst hlp hne hpe hc
                    (name_miss_of_read hln (Or.inr hfind))]
                  refine ⟨nps_of_name_miss ?_, by rw [hst]; simp⟩
                  rw [hst]
                  exact name_miss_of_read hln (Or.inr hfind)
                | some l =>
                  obtain ⟨e_state, e_config, e_back, e_lay, e_sty⟩ :=
                    stateBranch_stale_hit fs ls p c n l hst hlp hne hpe hc hln hnne hfind
                  have hpe_l : pathExists fs l = true := findLayoutByName_exists hfind
                  obtain ⟨hw1, hw2, hw3, hw4⟩ := wf_path hwf hpe_l
                  constructor
                  · apply nps_of_valid_lp (q := l)
                    · rw [e_state, getStateValue_set_self lpKey_noEq, hw1]
                    · rw [pathExists_congr e_lay]
                      exact hpe_l
                  · rw [e_state]
                    simp
        · cases hc : fs.config with
          | none =>
            rw [stateBranch_valid_noconfig fs ls p hst hlp hne hpe hc]
            refine ⟨nps_of_valid_lp (q := p) (by rw [hst]; exact hlp) hpe, ?_⟩
            rw [hst]
            simp
          | some c =>
            obtain ⟨e_state, e_config, e_back, e_lay, e_sty⟩ :=
              stateBranch_valid_config fs ls p c hst hlp hne hpe hc
            constructor
            · apply nps_of_valid_lp (q := p)
              · rw [e_state, hst]
                exact hlp
              · rw [pathExists_congr e_lay]
                exact hpe
            · rw [e_state, hst]
              simp

theorem reconcile_eq_tail (fs : WaybarFS) :
    reconcile fs = ensureStateFile ((getCurrentLayoutFromConfig (prologue fs)).2) := rfl

theorem legacyHash_read_lp (t : WaybarFS) (c : String) (h1 : (legacyHash t).1 = some c) :
    getStateValue (legacyHash t).2.state "WAYBAR_LAYOUT_PATH" none = some (pyStrip c) := by
  cases hfind : (catalogPaths t).find?
      (fun p => contentOf t p == t.config.getD emptyJson) with
  | some lf =>
    obtain ⟨m1, m2, m3, m4, m5, m6⟩ := legacyHash_match t lf hfind
    rw [m1] at h1
    injection h1 with he
    subst he
    rw [m2, read_lp_setset]
  | none =>
    cases hcat : catalogPaths t with
    | nil =>
      rw [(legacyHash_empty t hfind hcat).1] at h1
      exact absurd h1 (by simp)
    | cons l0 rest =>
      obtain ⟨m1, m2, m3, m4, m5, m6⟩ := legacyHash_default t l0 rest hfind hcat
      rw [m1] at h1
      injection h1 with he
      subst he
      rw [m2, read_lp_setset]

theorem legacyHash_none_state (t : WaybarFS) (h1 : (legacyHash t).1 = none) :
    (legacyHash t).2.state = t.state ∧ (legacyHash t).2.backups = t.backups ∧
    catalogPaths t = [] := by
  cases hfind : (catalogPaths t).find?
      (fun p => contentOf t p == t.config.getD emptyJson) with
  | some lf =>
    rw [(legacyHash_match t lf hfind).1] at h1
    exact absurd h1 (by simp)
  | none =>
    cases hcat : catalogPaths t with
    | nil =>
      obtain ⟨m1, m2, m3, m4, m5, m6⟩ := legacyHash_empty t hfind hcat
      exact ⟨m2, m4, rfl⟩
    | cons l0 rest =>
      rw [(legacyHash_default t l0 rest hfind hcat).1] at h1
      exact absurd h1 (by simp)

theorem ensure_empty_state (t : WaybarFS) (hwf : WfFS t) (hst : t.state = some []) :
    NoPendingStale (ensureStateFile t) ∧
    (∃ ls2, (ensureStateFile t).state = some ls2) ∧
    (ensureStateFile t).layouts = t.layouts := by
  have hlpread : getStateValue t.state "WAYBAR_LAYOUT_PATH" none = none := by
    rw [hst]
    rfl
  have hlnread : getStateValue t.state "WAYBAR_LAYOUT_NAME" none = none := by
    rw [hst]
    rfl
  have hgc : getCurrentLayoutFromConfig t = legacyHash t := by
    rw [getCurrent_invalid t (lp_invalid_of_none hlpread),
      getCurrentByName_legacy t (byName_fallback_of_none hlnread)]
  have hanynil : ([] : List String).any
      (fun l => strStartsWith l "WAYBAR_LAYOUT_PATH=") = false := rfl
  cases hcur : (legacyHash t).1 with
  | none =>
    obtain ⟨n2, n4, ncat⟩ := legacyHash_none_state t hcur
    have hpair : getCurrentLayoutFromConfig t = (none, (legacyHash t).2) := by
      rw [hgc]
      rw [show legacyHash t = ((legacyHash t).1, (legacyHash t).2) from rfl, hcur]
    have hens := ensure_noLP_none t ((legacyHash t).2) [] hst hanynil hpair
    rw [hens]
    refine ⟨nps_of_noLP ?_, ⟨[], ?_⟩, legacyHash_layouts t⟩
    · rw [n2, hst]
      rfl
    · rw [n2, hst]
  | some c =>
    have hreadc : getStateValue (legacyHash t).2.state "WAYBAR_LAYOUT_PATH" none =
        some (pyStrip c) := legacyHash_read_lp t c hcur
    have hpec : pathExists t c = true := by
      apply legacyHash_some_exists t c hcur
    obtain ⟨hw1, hw2, hw3, hw4⟩ := wf_path hwf hpec
    have hpair : getCurrentLayoutFromConfig t = (some c, (legacyHash t).2) := by
      rw [hgc]
      rw [show legacyHash t = ((legacyHash t).1, (legacyHash t).2) from rfl, hcur]
    have hens := ensure_noLP_some t ((legacyHash t).2) [] c hst hanynil hpair
    have hanyset : ∀ ls2, (legacyHash t).2.state = some ls2 →
        ls2.any (fun l => strStartsWith l ("WAYBAR_LAYOUT_PATH" ++ "=")) = true := by
      intro ls2 hls2
      rw [hls2] at hreadc
      exact anyKey_of_get hreadc
    cases hls2 : (legacyHash t).2.state with
    | none => rw [hls2] at hreadc; exact absurd hreadc (by simp [getStateValue])
    | some ls2 =>
      have hread' : getStateValue ((ensureStateFile t).state) "WAYBAR_LAYOUT_PATH" none =
          some (pyStrip c) := by
        rw [hens]
        show getStateValue (some (((legacyHash t).2.state.getD []) ++ _))
          "WAYBAR_LAYOUT_PATH" none = some (pyStrip c)
        rw [hls2]
        show getStateValue (some (ls2 ++ _)) "WAYBAR_LAYOUT_PATH" none = some (pyStrip c)
        rw [getStateValue_append_left (hanyset ls2 hls2)]
        rw [← hls2]
        exact hreadc
      refine ⟨?_, ⟨_, by rw [hens]⟩, ?_⟩
      · apply nps_of_valid_lp (q := pyStrip c)
        · exact hread'
        · rw [hw1]
          have hlay : (ensureStateFile t).layouts = t.layouts := ensure_layouts t
          rw [pathExists_congr hlay]
          exact hpec
      · exact ensure_layouts t

theorem prologue_layouts (fs : WaybarFS) : (prologue fs).layouts = fs.layouts := by
  simp only [prologue]
  by_cases hcond : (stateBranch fs).state = none ∨ (stateBranch fs).state = some []
  · rw [if_pos hcond, ensure_layouts, stateBranch_layouts]
  · rw [if_neg hcond, stateBranch_layouts]

theorem prologue_good (fs : WaybarFS) (hwf : WfFS fs) :
    NoPendingStale (prologue fs) ∧ ∃ ls, (prologue fs).state = some ls := by
  obtain ⟨hnps1, hne1⟩ := stateBranch_nps fs hwf
  simp only [prologue]
  by_cases hcond : (stateBranch fs).state = none ∨ (stateBranch fs).state = some []
  · rw [if_pos hcond]
    rcases hcond with h | h
    · exact absurd h hne1
    · obtain ⟨a, b, _⟩ := ensure_empty_state (stateBranch fs)
        (WfFS_congr (stateBranch_layouts fs) hwf) h
      exact ⟨a, b⟩
  · rw [if_neg hcond]
    refine ⟨hnps1, ?_⟩
    cases hs : (stateBranch fs).state with
    | none => exact absurd hs hne1
    | some ls => exact ⟨ls, rfl⟩

theorem ensure_of_read (t : WaybarFS) (ls : List String) (hst : t.state = some ls)
    {p : String} (hread : getStateValue t.state "WAYBAR_LAYOUT_PATH" none = some p) :
    ensureStateFile t = t := by
  apply ensure_hasLP t ls hst
  rw [key_split_LP]
  rw [hst] at hread
  exact anyKey_of_get hread

theorem legacy_first_none_of_cat_nil (t : WaybarFS) (hcat : catalogPaths t = []) :
    (legacyHash t).1 = none := by
  have hfind : (catalogPaths t).find?
      (fun p => contentOf t p == t.config.getD emptyJson) = none := by
    rw [hcat]
    rfl
  exact (legacyHash_empty t hfind hcat).1

theorem tail_good_legacy (t : WaybarFS) (hwf : WfFS t) (ls : List String)
    (hst : t.state = some ls)
    (hgc : getCurrentLayoutFromConfig t = legacyHash t) :
    GoodState (ensureStateFile ((getCurrentLayoutFromConfig t).2)) := by
  rw [hgc]
  cases hcur : (legacyHash t).1 with
  | some c =>
    have hreadc : getStateValue (legacyHash t).2.state "WAYBAR_LAYOUT_PATH" none =
        some (pyStrip c) := legacyHash_read_lp t c hcur
    have hpec : pathExists t c = true := legacyHash_some_exists t c hcur
    obtain ⟨hw1, hw2, hw3, hw4⟩ := wf_path hwf hpec
    rw [hw1] at hreadc
    cases hls2 : (legacyHash t).2.state with
    | none => rw [hls2] at hreadc; exact absurd hreadc (by simp [getStateValue])
    | some ls2 =>
      have hens : ensureStateFile (legacyHash t).2 = (legacyHash t).2 :=
        ensure_of_read _ ls2 hls2 hreadc
      rw [hens]
      refine ⟨⟨ls2, hls2⟩, Or.inl ⟨c, hreadc, hw2, ?_⟩⟩
      rw [pathExists_congr (legacyHash_layouts t)]
      exact hpec
  | none =>
    obtain ⟨n2, n4, ncat⟩ := legacyHash_none_state t hcur
    have hcat2 : catalogPaths (legacyHash t).2 = [] := by
      rw [catalogPaths_congr (legacyHash_layouts t)]
      exact ncat
    by_cases hany : ls.any (fun l => strStartsWith l "WAYBAR_LAYOUT_PATH=") = true
    · rw [ensure_hasLP (legacyHash t).2 ls (by rw [n2, hst]) hany]
      exact ⟨⟨ls, by rw [n2, hst]⟩, Or.inr (Or.inl hcat2)⟩
    · have hany' : ls.any (fun l => strStartsWith l "WAYBAR_LAYOUT_PATH=") = false :=
        Bool.eq_false_iff.mpr hany
      have hread2 : getStateValue (legacyHash t).2.state "WAYBAR_LAYOUT_PATH" none =
          none := by
        rw [n2, hst]
        apply getStateValue_none_iff.mpr
        rw [key_split_LP] at hany'
        exact hany'
      have hread2n : ∀ n, getStateValue (legacyHash t).2.state "WAYBAR_LAYOUT_NAME" none =
          some n → n = "" ∨ findLayoutByName (legacyHash t).2 n = none := by
        intro n _
        right
        exact findLayoutByName_none_of_catalog_nil hcat2 n
      have hgc2 : getCurrentLayoutFromConfig (legacyHash t).2 = legacyHash (legacyHash t).2 := by
        rw [getCurrent_invalid _ (lp_invalid_of_none hread2),
          getCurrentByName_legacy _ hread2n]
      have hcur2 : (legacyHash (legacyHash t).2).1 = none :=
        legacy_first_none_of_cat_nil _ hcat2
      have hpair : getCurrentLayoutFromConfig (legacyHash t).2 =
          (none, (legacyHash (legacyHash t).2).2) := by
        rw [hgc2]
        rw [show legacyHash (legacyHash t).2 =
          ((legacyHash (legacyHash t).2).1, (legacyHash (legacyHash t).2).2) from rfl, hcur2]
      obtain ⟨k2, k4, _⟩ := legacyHash_none_state (legacyHash t).2 hcur2
      have hens := ensure_noLP_none (legacyHash t).2 ((legacyHash (legacyHash t).2).2) ls
        (by rw [n2, hst]) hany' hpair
      rw [hens]
      refine ⟨⟨ls, by rw [k2, n2, hst]⟩, Or.inr (Or.inl ?_)⟩
      rw [catalogPaths_congr (legacyHash_layouts (legacyHash t).2)]
      exact hcat2

theorem tail_good_hit_hasLP (t : WaybarFS) (ls : List String) (p n l : String)
    (hst : t.state = some ls) (hnps : NoPendingStale t)
    (hlp : getStateValue t.state "WAYBAR_LAYOUT_PATH" none = some p)
    (hinv : p = "" ∨ pathExists t p = false)
    (hln : getStateValue t.state "WAYBAR_LAYOUT_NAME" none = some n) (hne : n ≠ "")
    (hfind : findLayoutByName t n = some l)
    (hgc : getCurrentLayoutFromConfig t = (some l, t)) :
    GoodState (ensureStateFile ((getCurrentLayoutFromConfig t).2)) := by
  rw [hgc]
  rw [ensure_of_read t ls hst hlp]
  refine ⟨⟨ls, hst⟩, Or.inr (Or.inr ⟨p, hlp, ?_, n, l, hln, hne, hfind⟩)⟩
  by_cases hpe : p = ""
  · exact Or.inl hpe
  · rcases hinv with he | hdangle
    · exact absurd he hpe
    · refine Or.inr ⟨hdangle, ?_⟩
      cases hc : t.config with
      | none => rfl
      | some c => exact absurd (hnps p c n l hlp hpe hdangle hc hln hne hfind) not_false

theorem tail_good (t : WaybarFS) (hwf : WfFS t) (ls : List String)
    (hst : t.state = some ls) (hnps : NoPendingStale t) :
    GoodState (ensureStateFile ((getCurrentLayoutFromConfig t).2)) := by
  cases hlp : getStateValue t.state "WAYBAR_LAYOUT_PATH" none with
  | some p =>
    by_cases hv : p ≠ "" ∧ pathExists t p = true
    · have hgc := getCurrent_valid t p hlp hv.1 hv.2
      rw [hgc]
      rw [ensure_of_read t ls hst hlp]
      exact ⟨⟨ls, hst⟩, Or.inl ⟨p, hlp, hv.1, hv.2⟩⟩
    · have hinvAll := lp_invalid_cases hlp hv
      have hgcI := getCurrent_invalid t hinvAll
      cases hln : getStateValue t.state "WAYBAR_LAYOUT_NAME" none with
      | none =>
        exact tail_good_legacy t hwf ls hst
          (by rw [hgcI, getCurrentByName_legacy t (byName_fallback_of_none hln)])
      | some n =>
        by_cases hne : n = ""
        · exact tail_good_legacy t hwf ls hst
            (by rw [hgcI, getCurrentByName_legacy t
                (byName_fallback_of_read hln (Or.inl hne))])
        · cases hfind : findLayoutByName t n with
          | none =>
            exact tail_good_legacy t hwf ls hst
              (by rw [hgcI, getCurrentByName_legacy t
                  (byName_fallback_of_read hln (Or.inr hfind))])
          | some l =>
            exact tail_good_hit_hasLP t ls p n l hst hnps hlp (hinvAll p hlp) hln hne hfind
              (by rw [hgcI, getCurrentByName_hit t n l hln hne hfind])
  | none =>
    have hinvAll := lp_invalid_of_none hlp
    have hgcI := getCurrent_invalid t hinvAll
    have hanyF : ls.any (fun x => strStartsWith x ("WAYBAR_LAYOUT_PATH" ++ "=")) = false := by
      apply getStateValue_none_iff.mp
      rw [← hst]
      exact hlp
    have hanyF' : ls.any (fun x => strStartsWith x "WAYBAR_LAYOUT_PATH=") = false := by
      rw [key_split_LP]
      exact hanyF
    cases hln : getStateValue t.state "WAYBAR_LAYOUT_NAME" none with
    | none =>
      exact tail_good_legacy t hwf ls hst
        (by rw [hgcI, getCurrentByName_legacy t (byName_fallback_of_none hln)])
    | some n =>
      by_cases hne : n = ""
      · exact tail_good_legacy t hwf ls hst
          (by rw [hgcI, getCurrentByName_legacy t
              (byName_fallback_of_read hln (Or.inl hne))])
      · cases hfind : findLayoutByName t n with
        | none =>
          exact tail_good_legacy t hwf ls hst
            (by rw [hgcI, getCurrentByName_legacy t
                (byName_fallback_of_read hln (Or.inr hfind))])
        | some l =>
          have hgc : getCurrentLayoutFromConfig t = (some l, t) := by
            rw [hgcI, getCurrentByName_hit t n l hln hne hfind]
          rw [hgc]
          rw [ensure_noLP_some t t ls l hst hanyF' hgc]
          obtain ⟨hw1, hw2, _, _⟩ := wf_path hwf (findLayoutByName_exists hfind)
          refine ⟨⟨_, rfl⟩, Or.inl ⟨l, ?_, hw2, ?_⟩⟩
          · show getStateValue (some ((t.state.getD []) ++ _)) "WAYBAR_LAYOUT_PATH"
              none = some l
            rw [hst]
            show getStateValue (some (ls ++ _)) "WAYBAR_LAYOUT_PATH" none = some l
            rw [getStateValue_append_right
              (fun x hx => Bool.eq_false_iff.mpr (List.any_eq_false.mp hanyF x hx))]
            rw [show ([lpLine l] ++
                (if ls.any (fun x => strStartsWith x "WAYBAR_LAYOUT_NAME=") = false
                 then [lnLine (basenameNoExt l)] else []) ++
                (if ls.any (fun x => strStartsWith x "WAYBAR_STYLE_PATH=") = false
                 then [spLine (resolve_style_path t.styleDirs l)] else [])) =
              lpLine l ::
                ((if ls.any (fun x => strStartsWith x "WAYBAR_LAYOUT_NAME=") = false
                  then [lnLine (basenameNoExt l)] else []) ++
                 (if ls.any (fun x => strStartsWith x "WAYBAR_STYLE_PATH=") = false
                  then [spLine (resolve_style_path t.styleDirs l)] else [])) from by
              simp]
            rw [lpLine_eq, getStateValue_cons_hit lpKey_noEq, hw1]
          · rw [pathExists_congr (a := { t with state := some ((t.state.getD []) ++ _) })
              (b := t) rfl]
            exact findLayoutByName_exists hfind

theorem goodState_reconcile (fs : WaybarFS) (hwf : WfFS fs) : GoodState (reconcile fs) := by
  obtain ⟨hnps, ls, hst⟩ := prologue_good fs hwf
  rw [reconcile_eq_tail]
  exact tail_good (prologue fs) (WfFS_congr (prologue_layouts fs) hwf) ls hst hnps

theorem reconcile_valid_noconfig (s : WaybarFS) (ls : List String) (p : String)
    (hst : s.state = some ls)
    (hlp : getStateValue s.state "WAYBAR_LAYOUT_PATH" none = some p) (hne : p ≠ "")
    (hpe : pathExists s p = true) (hc : s.config = none) :
    reconcile s = s := by
  rw [hst] at hlp
  have hsb : stateBranch s = s := stateBranch_valid_noconfig s ls p hst hlp hne hpe hc
  have hcond : ¬ (s.state = none ∨ s.state = some []) := by
    rw [hst]
    rintro (h | h)
    · exact absurd h (by simp)
    · exact state_nonempty_of_get hlp (by injection h)
  have hgc : getCurrentLayoutFromConfig s = (some p, s) :=
    getCurrent_valid s p (by rw [hst]; exact hlp) hne hpe
  have hens : ensureStateFile s = s := ensure_of_read s ls hst (by rw [hst]; exact hlp)
  simp only [reconcile, hsb, if_neg hcond, hgc, hens]

theorem legacy_nilcat (t : WaybarFS) (hcat : catalogPaths t = []) :
    (legacyHash t).1 = none ∧ (legacyHash t).2.state = t.state ∧
    (legacyHash t).2.backups = t.backups ∧ (legacyHash t).2.layouts = t.layouts := by
  have hfind : (catalogPaths t).find?
      (fun p => contentOf t p == t.config.getD emptyJson) = none := by
    rw [hcat]
    rfl
  obtain ⟨a, b, _, d, e, _⟩ := legacyHash_empty t hfind hcat
  exact ⟨a, b, d, e⟩

theorem getCurrent_nilcat (t : WaybarFS) (hcat : catalogPaths t = []) :
    getCurrentLayoutFromConfig t = legacyHash t := by
  rw [getCurrent_invalid t (fun p _ => Or.inr (pathExists_false_of_catalog_nil hcat p)),
    getCurrentByName_legacy t
      (fun n _ => Or.inr (findLayoutByName_none_of_catalog_nil hcat n))]

theorem ensure_nilcat (t : WaybarFS) (ls : List String) (hst : t.state = some ls)
    (hcat : catalogPaths t = []) :
    (ensureStateFile t).state = t.state ∧ (ensureStateFile t).backups = t.backups ∧
    (ensureStateFile t).layouts = t.layouts := by
  obtain ⟨l1, l2, l3, l4⟩ := legacy_nilcat t hcat
  have hgc : getCurrentLayoutFromConfig t = (none, (legacyHash t).2) := by
    rw [getCurrent_nilcat t hcat,
      show legacyHash t = ((legacyHash t).1, (legacyHash t).2) from rfl, l1]
  by_cases hany : ls.any (fun l => strStartsWith l "WAYBAR_LAYOUT_PATH=") = true
  · rw [ensure_hasLP t ls hst hany]
    exact ⟨rfl, rfl, rfl⟩
  · rw [ensure_noLP_none t ((legacyHash t).2) ls hst (Bool.eq_false_iff.mpr hany) hgc]
    exact ⟨l2, l3, l4⟩

theorem stateBranch_nilcat (s : WaybarFS) (ls : List String)
    (hst : s.state = some ls) (hcat : catalogPaths s = []) :
    stateBranch s = s := by
  cases hlp : getStateValue (some ls) "WAYBAR_LAYOUT_PATH" none with
  | none => exact stateBranch_noLP s ls hst hlp
  | some p =>
    by_cases hne : p = ""
    · subst hne
      exact stateBranch_lpEmpty s ls hst hlp
    · have hpe : pathExists s p = false := pathExists_false_of_catalog_nil hcat p
      cases hc : s.config with
      | none => exact stateBranch_stale_noconfig s ls p hst hlp hne hpe hc
      | some cfg =>
        exact stateBranch_stale_miss s ls p cfg hst hlp hne hpe hc
          (fun n _ => Or.inr (findLayoutByName_none_of_catalog_nil hcat n))

theorem reconcile_nilcat (s : WaybarFS) (ls : List String)
    (hst : s.state = some ls) (hcat : catalogPaths s = []) :
    (reconcile s).state = s.state ∧ (reconcile s).backups = s.backups := by
  have hsb : stateBranch s = s := stateBranch_nilcat s ls hst hcat
  by_cases hempty : ls = []
  · subst hempty
    have hcond : s.state = none ∨ s.state = some [] := Or.inr hst
    simp only [reconcile, hsb, if_pos hcond]
    obtain ⟨e1, e2, e3⟩ := ensure_nilcat s [] hst hcat
    have hcat2 : catalogPaths (ensureStateFile s) = [] := by
      rw [catalogPaths_congr e3]
      exact hcat
    obtain ⟨g1, g2, g3, g4⟩ := legacy_nilcat (ensureStateFile s) hcat2
    have hgc2 : getCurrentLayoutFromConfig (ensureStateFile s) =
        (none, (legacyHash (ensureStateFile s)).2) := by
      rw [getCurrent_nilcat _ hcat2, show legacyHash (ensureStateFile s) =
        ((legacyHash (ensureStateFile s)).1, (legacyHash (ensureStateFile s)).2) from rfl,
        g1]
    rw [hgc2]
    have hstu : (legacyHash (ensureStateFile s)).2.state = some [] := by
      rw [g2, e1, hst]
    have hcat3 : catalogPaths (legacyHash (ensureStateFile s)).2 = [] := by
      rw [catalogPaths_congr g4]
      exact hcat2
    obtain ⟨f1, f2, _⟩ := ensure_nilcat ((legacyHash (ensureStateFile s)).2) [] hstu hcat3
    constructor
    · rw [f1, g2, e1]
    · rw [f2, g3, e2]
  · have hcond : ¬ (s.state = none ∨ s.state = some []) := by
      rw [hst]
      rintro (h | h)
      · exact absurd h (by simp)
      · exact hempty (by injection h)
    simp only [reconcile, hsb, if_neg hcond]
    obtain ⟨l1, l2, l3, l4⟩ := legacy_nilcat s hcat
    rw [getCurrent_nilcat s hcat]
    have hstu : (legacyHash s).2.state = some ls := by
      rw [l2, hst]
    have hcat3 : catalogPaths (legacyHash s).2 = [] := by
      rw [catalogPaths_congr l4]
      exact hcat
    obtain ⟨f1, f2, _⟩ := ensure_nilcat ((legacyHash s).2) ls hstu hcat3
    exact ⟨by rw [f1, l2], by rw [f2, l3]⟩

theorem reconcile_dclass (s : WaybarFS) (ls : List String) (p n l : String)
    (hst : s.state = some ls)
    (hlp : getStateValue s.state "WAYBAR_LAYOUT_PATH" none = some p)
    (hinv : p = "" ∨ (pathExists s p = false ∧ s.config = none))
    (hln : getStateValue s.state "WAYBAR_LAYOUT_NAME" none = some n) (hne : n ≠ "")
    (hfind : findLayoutByName s n = some l) :
    reconcile s = s := by
  have hlpl : getStateValue (some ls) "WAYBAR_LAYOUT_PATH" none = some p := by
    rw [← hst]
    exact hlp
  have hlnl : getStateValue (some ls) "WAYBAR_LAYOUT_NAME" none = some n := by
    rw [← hst]
    exact hln
  have hsb : stateBranch s = s := by
    by_cases hpne : p = ""
    · subst hpne
      exact stateBranch_lpEmpty s ls hst hlpl
    · rcases hinv with he | ⟨hpe, hc⟩
      · exact absurd he hpne
      · exact stateBranch_stale_noconfig s ls p hst hlpl hpne hpe hc
  have hcond : ¬ (s.state = none ∨ s.state = some []) := by
    rw [hst]
    rintro (h | h)
    · exact absurd h (by simp)
    · exact state_nonempty_of_get hlpl (by injection h)
  have hinv' : p = "" ∨ pathExists s p = false := by
    rcases hinv with he | ⟨hpe, _⟩
    · exact Or.inl he
    · exact Or.inr hpe
  have hgc : getCurrentLayoutFromConfig s = (some l, s) := by
    rw [getCurrent_invalid s (lp_invalid_of_read hlp hinv'),
      getCurrentByName_hit s n l hln hne hfind]
  have hens : ensureStateFile s = s := ensure_of_read s ls hst hlp
  simp only [reconcile, hsb, if_neg hcond, hgc, hens]

/-- C7 counterexample: from a well-formed state holding only a layout name
beside a drifted live config, the first reconciliation run appends the
missing path entry without copying the layout over the config, so the
second run archives a backup — the original claim that a second run never
creates a backup is false. -/
theorem C7_counterexample :
    WfFS waybarFixtureB ∧
    (reconcile waybarFixtureB).backups = [] ∧
    (reconcile (reconcile waybarFixtureB)).backups = ["X"] := by
  decide

/-- C7 (amended): after one completed reconciliation run on a well-formed
state, a second run with no external modification leaves the state record
byte-identical; the second run either creates no backup, or it performs
exactly one pending drift repair — archiving precisely the live config it
found into one new backup — after which a third run changes neither the
state record nor the backups. -/
theorem C7_second_run (fs : WaybarFS) (hwf : WfFS fs) :
    (reconcile (reconcile fs)).state = (reconcile fs).state ∧
    ((reconcile (reconcile fs)).backups = (reconcile fs).backups ∨
     ∃ c, (reconcile fs).config = some c ∧
       (reconcile (reconcile fs)).backups = (reconcile fs).backups ++ [c] ∧
       (reconcile (reconcile (reconcile fs))).state = (reconcile (reconcile fs)).state ∧
       (reconcile (reconcile (reconcile fs))).backups =
         (reconcile (reconcile fs)).backups) := by
  obtain ⟨⟨ls, hst⟩, hclass⟩ := goodState_reconcile fs hwf
  rcases hclass with ⟨p, hlp, hne, hpe⟩ | hcat | ⟨p, hlp, hinv, n, l, hln, hnne, hfind⟩
  · cases hc : (reconcile fs).config with
    | none =>
      have hrec := reconcile_valid_noconfig (reconcile fs) ls p hst hlp hne hpe hc
      exact ⟨by rw [hrec], Or.inl (by rw [hrec])⟩
    | some c =>
      obtain ⟨hb1, hb2, hb3, hb4⟩ := reconcile_valid_run (reconcile fs) p c hlp hne hpe hc
      by_cases hcc : c = contentOf (reconcile fs) p
      · exact ⟨hb4, Or.inl (hb2 hcc)⟩
      · have hlp2 : getStateValue (reconcile (reconcile fs)).state
            "WAYBAR_LAYOUT_PATH" none = some p := by
          rw [hb4]
          exact hlp
        have hpe2 : pathExists (reconcile (reconcile fs)) p = true := by
          rw [pathExists_congr (reconcile_layouts (reconcile fs))]
          exact hpe
        obtain ⟨_, heq2, _, hs3⟩ := reconcile_valid_run (reconcile (reconcile fs)) p
          (contentOf (reconcile fs) p) hlp2 hne hpe2 hb3
        refine ⟨hb4, Or.inr ⟨c, hc.symm ▸ rfl, hb1 hcc, hs3, heq2 ?_⟩⟩
        exact (contentOf_congr (reconcile_layouts (reconcile fs)) p).symm
  · obtain ⟨e1, e2⟩ := reconcile_nilcat (reconcile fs) ls hst hcat
    exact ⟨e1, Or.inl e2⟩
  · have hrec := reconcile_dclass (reconcile fs) ls p n l hst hlp hinv hln hnne hfind
    exact ⟨by rw [hrec], Or.inl (by rw [hrec])⟩

/-- Witness for C7_second_run at the name-only fixture, where the second
run does take the drift-repair branch. -/
theorem C7_second_run_witness :
    WfFS waybarFixtureB ∧
    ((reconcile (reconcile waybarFixtureB)).state = (reconcile waybarFixtureB).state ∧
     ((reconcile (reconcile waybarFixtureB)).backups =
        (reconcile waybarFixtureB).backups ∨
      ∃ c, (reconcile waybarFixtureB).config = some c ∧
        (reconcile (reconcile waybarFixtureB)).backups =
          (reconcile waybarFixtureB).backups ++ [c] ∧
        (reconcile (reconcile (reconcile waybarFixtureB))).state =
          (reconcile (reconcile waybarFixtureB)).state ∧
        (reconcile (reconcile (reconcile waybarFixtureB))).backups =
          (reconcile (reconcile waybarFixtureB)).backups)) :=
  ⟨by decide, C7_second_run waybarFixtureB (by decide)⟩

theorem line_start_unique {k1 k2 l : String} (hk1 : '=' ∉ k1.toList)
    (hk2 : '=' ∉ k2.toList) (hne : k2 ≠ k1) (h : strStartsWith l (k1 ++ "=") = true) :
    strStartsWith l (k2 ++ "=") = false := by
  by_contra hc
  have h2 : strStartsWith l (k2 ++ "=") = true := by
    revert hc
    cases strStartsWith l (k2 ++ "=") <;> simp
  exact hne (strStartsWith_key_eq h2 h hk2 hk1)

theorem switch_read_lp (st : List String) (v s : String)
    (hany : st.any (fun l => strStartsWith l "WAYBAR_LAYOUT_PATH=") = true) :
    getStateValue (some (st.map (fun l =>
        if strStartsWith l "WAYBAR_LAYOUT_PATH=" then lpLine v
        else if strStartsWith l "WAYBAR_STYLE_PATH=" then spLine s
        else l))) "WAYBAR_LAYOUT_PATH" none = some (pyStrip v) := by
  induction st with
  | nil => simp at hany
  | cons h t ih =>
    by_cases hph : strStartsWith h "WAYBAR_LAYOUT_PATH=" = true
    · rw [List.map_cons, if_pos hph, lpLine_eq]
      exact getStateValue_cons_hit lpKey_noEq
    · have hph' : strStartsWith h "WAYBAR_LAYOUT_PATH=" = false :=
        Bool.eq_false_iff.mpr hph
      have ht : t.any (fun l => strStartsWith l "WAYBAR_LAYOUT_PATH=") = true := by
        simp only [List.any_cons, hph', Bool.false_or] at hany
        exact hany
      rw [List.map_cons, if_neg hph]
      by_cases hsp : strStartsWith h "WAYBAR_STYLE_PATH=" = true
      · rw [if_pos hsp]
        have hskip : strStartsWith (spLine s) ("WAYBAR_LAYOUT_PATH" ++ "=") = false := by
          rw [spLine_eq]
          exact strStartsWith_line_ne lpKey_noEq spKey_noEq (by decide)
            (strStartsWith_key _ _)
        rw [getStateValue_cons_skip hskip]
        exact ih ht
      · rw [if_neg hsp]
        rw [key_split_LP] at hph'
        rw [getStateValue_cons_skip hph']
        exact ih ht

theorem switch_read_sp (st : List String) (v s : String)
    (hany : st.any (fun l => strStartsWith l "WAYBAR_STYLE_PATH=") = true) :
    getStateValue (some (st.map (fun l =>
        if strStartsWith l "WAYBAR_LAYOUT_PATH=" then lpLine v
        else if strStartsWith l "WAYBAR_STYLE_PATH=" then spLine s
        else l))) "WAYBAR_STYLE_PATH" none = some (pyStrip s) := by
  induction st with
  | nil => simp at hany
  | cons h t ih =>
    by_cases hph : strStartsWith h "WAYBAR_LAYOUT_PATH=" = true
    · have hsp_h : strStartsWith h "WAYBAR_STYLE_PATH=" = false := by
        rw [key_split_SP]
        exact line_start_unique lpKey_noEq spKey_noEq (by decide) (key_split_LP ▸ hph)
      have ht : t.any (fun l => strStartsWith l "WAYBAR_STYLE_PATH=") = true := by
        simp only [List.any_cons, hsp_h, Bool.false_or] at hany
        exact hany
      rw [List.map_cons, if_pos hph]
      have hskip : strStartsWith (lpLine v) ("WAYBAR_STYLE_PATH" ++ "=") = false := by
        rw [lpLine_eq]
        exact strStartsWith_line_ne spKey_noEq lpKey_noEq (by decide)
          (strStartsWith_key _ _)
      rw [getStateValue_cons_skip hskip]
      exact ih ht
    · rw [List.map_cons, if_neg hph]
      by_cases hsp : strStartsWith h "WAYBAR_STYLE_PATH=" = true
      · rw [if_pos hsp, spLine_eq]
        exact getStateValue_cons_hit spKey_noEq
      · have hsp' : strStartsWith h "WAYBAR_STYLE_PATH=" = false :=
          Bool.eq_false_iff.mpr hsp
        have ht : t.any (fun l => strStartsWith l "WAYBAR_STYLE_PATH=") = true := by
          simp only [List.any_cons, hsp', Bool.false_or] at hany
          exact hany
        rw [if_neg hsp]
        rw [key_split_SP] at hsp'
        rw [getStateValue_cons_skip hsp']
        exact ih ht

theorem switch_read_other (st : List String) (v s k : String)
    (hk : '=' ∉ k.toList) (hne1 : k ≠ "WAYBAR_LAYOUT_PATH")
    (hne2 : k ≠ "WAYBAR_STYLE_PATH") :
    getStateValue (some (st.map (fun l =>
        if strStartsWith l "WAYBAR_LAYOUT_PATH=" then lpLine v
        else if strStartsWith l "WAYBAR_STYLE_PATH=" then spLine s
        else l))) k none = getStateValue (some st) k none := by
  induction st with
  | nil => rfl
  | cons h t ih =>
    by_cases hph : strStartsWith h "WAYBAR_LAYOUT_PATH=" = true
    · have hk_h : strStartsWith h (k ++ "=") = false :=
        line_start_unique lpKey_noEq hk hne1 (key_split_LP ▸ hph)
      have hk_new : strStartsWith (lpLine v) (k ++ "=") = false := by
        rw [lpLine_eq]
        exact strStartsWith_line_ne hk lpKey_noEq hne1 (strStartsWith_key _ _)
      rw [List.map_cons, if_pos hph, getStateValue_cons_skip hk_new,
        getStateValue_cons_skip hk_h]
      exact ih
    · rw [List.map_cons, if_neg hph]
      by_cases hsp : strStartsWith h "WAYBAR_STYLE_PATH=" = true
      · have hk_h : strStartsWith h (k ++ "=") = false :=
          line_start_unique spKey_noEq hk hne2 (key_split_SP ▸ hsp)
        have hk_new : strStartsWith (spLine s) (k ++ "=") = false := by
          rw [spLine_eq]
          exact strStartsWith_line_ne hk spKey_noEq hne2 (strStartsWith_key _ _)
        rw [if_pos hsp, getStateValue_cons_skip hk_new, getStateValue_cons_skip hk_h]
        exact ih
      · rw [if_neg hsp]
        by_cases hkh : strStartsWith h (k ++ "=") = true
        · have e1 := @List.find?_cons_of_pos String (fun l => strStartsWith l (k ++ "=")) h
            (t.map (fun l => if strStartsWith l "WAYBAR_LAYOUT_PATH=" then lpLine v
              else if strStartsWith l "WAYBAR_STYLE_PATH=" then spLine s else l)) hkh
          have e2 := @List.find?_cons_of_pos String (fun l => strStartsWith l (k ++ "="))
            h t hkh
          simp only [getStateValue, e1, e2]
        · have hkh' : strStartsWith h (k ++ "=") = false := Bool.eq_false_iff.mpr hkh
          rw [getStateValue_cons_skip hkh', getStateValue_cons_skip hkh']
          exact ih

theorem list_layouts_mem {nameOf : String → String} {fs : WaybarFS}
    {pr : String × String × String} (h : pr ∈ list_layouts nameOf fs) :
    pr.1 ∈ catalogPaths fs := by
  simp only [list_layouts, List.mem_map] at h
  obtain ⟨p, hp, he⟩ := h
  rw [← he]
  exact hp

/-- C5 counterexample: switching to the second layout rewrites
WAYBAR_LAYOUT_PATH and copies the layout content over the config, but
WAYBAR_LAYOUT_NAME keeps its old value a instead of the target's derived
name b — set_layout does not update all three state keys. -/
theorem C5_counterexample :
    basenameNoExt "L/b.jsonc" = "b" ∧
    (set_layout basenameNoExt "L/b.jsonc" waybarFixtureE).map
        (fun t => (getStateValue t.state "WAYBAR_LAYOUT_PATH" none,
                   getStateValue t.state "WAYBAR_LAYOUT_NAME" none,
                   t.config)) =
      some (some "L/b.jsonc", some "a", some "B") := by
  decide

/-- C5 (amended): a successful switch to a cataloged target rewrites the
WAYBAR_LAYOUT_PATH line to the target's path and the WAYBAR_STYLE_PATH line
to its resolved style, in place and when present, copies the target layout's
content over the live config, and leaves the line of every other key — in
particular WAYBAR_LAYOUT_NAME — unchanged; layouts and backups are
untouched. -/
theorem C5_switch_updates (nameOf : String → String) (target : String) (fs : WaybarFS)
    (hwf : WfFS fs) (st : List String) (hst : fs.state = some st)
    (pr : String × String × String)
    (hfind : (list_layouts nameOf fs).find?
      (fun q => target == q.1 || target == q.2.1) = some pr) :
    ∃ fs', set_layout nameOf target fs = some fs' ∧
      fs'.config = some (contentOf fs pr.1) ∧
      (st.any (fun l => strStartsWith l "WAYBAR_LAYOUT_PATH=") = true →
        getStateValue fs'.state "WAYBAR_LAYOUT_PATH" none = some pr.1) ∧
      (st.any (fun l => strStartsWith l "WAYBAR_STYLE_PATH=") = true →
        getStateValue fs'.state "WAYBAR_STYLE_PATH" none =
          some (pyStrip (resolve_style_path fs.styleDirs pr.1))) ∧
      (∀ k, '=' ∉ k.toList → k ≠ "WAYBAR_LAYOUT_PATH" → k ≠ "WAYBAR_STYLE_PATH" →
        getStateValue fs'.state k none = getStateValue fs.state k none) ∧
      fs'.layouts = fs.layouts ∧ fs'.backups = fs.backups := by
  refine ⟨{ fs with
      state := some (st.map (fun l =>
        if strStartsWith l "WAYBAR_LAYOUT_PATH=" then lpLine pr.1
        else if strStartsWith l "WAYBAR_STYLE_PATH=" then
          spLine (resolve_style_path fs.styleDirs pr.1)
        else l)),
      config := some (contentOf fs pr.1) }, ?_, rfl, ?_, ?_, ?_, rfl, rfl⟩
  · simp only [set_layout, hst, hfind]
  · intro hany
    have hmem : pr.1 ∈ catalogPaths fs :=
      list_layouts_mem (List.mem_of_find?_eq_some hfind)
    obtain ⟨hw1, _, _, _⟩ := wf_path hwf (pathExists_of_mem_catalog hmem)
    exact (switch_read_lp st pr.1 (resolve_style_path fs.styleDirs pr.1) hany).trans
      (by rw [hw1])
  · intro hany
    exact switch_read_sp st pr.1 (resolve_style_path fs.styleDirs pr.1) hany
  · intro k hk h1 h2
    exact (switch_read_other st pr.1 (resolve_style_path fs.styleDirs pr.1) k
      hk h1 h2).trans (by rw [hst])

/-- Witness for C5_switch_updates: the switch from layout a to layout b on
the populated fixture. -/
theorem C5_switch_updates_witness :
    WfFS waybarFixtureE ∧
    waybarFixtureE.state = some ["WAYBAR_LAYOUT_PATH=L/a.jsonc",
      "WAYBAR_LAYOUT_NAME=a", "WAYBAR_STYLE_PATH=S/defaults.css"] ∧
    (list_layouts basenameNoExt waybarFixtureE).find?
        (fun q => "L/b.jsonc" == q.1 || "L/b.jsonc" == q.2.1) =
      some ("L/b.jsonc", "b", "S/defaults.css") ∧
    (∃ fs', set_layout basenameNoExt "L/b.jsonc" waybarFixtureE = some fs' ∧
      fs'.config = some (contentOf waybarFixtureE "L/b.jsonc") ∧
      ((["WAYBAR_LAYOUT_PATH=L/a.jsonc", "WAYBAR_LAYOUT_NAME=a",
         "WAYBAR_STYLE_PATH=S/defaults.css"] : List String).any
          (fun l => strStartsWith l "WAYBAR_LAYOUT_PATH=") = true →
        getStateValue fs'.state "WAYBAR_LAYOUT_PATH" none = some "L/b.jsonc") ∧
      ((["WAYBAR_LAYOUT_PATH=L/a.jsonc", "WAYBAR_LAYOUT_NAME=a",
         "WAYBAR_STYLE_PATH=S/defaults.css"] : List String).any
          (fun l => strStartsWith l "WAYBAR_STYLE_PATH=") = true →
        getStateValue fs'.state "WAYBAR_STYLE_PATH" none =
          some (pyStrip (resolve_style_path waybarFixtureE.styleDirs "L/b.jsonc"))) ∧
      (∀ k, '=' ∉ k.toList → k ≠ "WAYBAR_LAYOUT_PATH" → k ≠ "WAYBAR_STYLE_PATH" →
        getStateValue fs'.state k none = getStateValue waybarFixtureE.state k none) ∧
      fs'.layouts = waybarFixtureE.layouts ∧ fs'.backups = waybarFixtureE.backups) :=
  ⟨by decide, rfl, by decide,
    C5_switch_updates basenameNoExt "L/b.jsonc" waybarFixtureE (by decide) _ rfl
      ("L/b.jsonc", "b", "S/defaults.css") (by decide)⟩

theorem dropWhileNe_key {ks rest : List Char} (hk : '=' ∉ ks) :
    (ks ++ '=' :: rest).dropWhile (fun c => !(c = '=' : Bool)) = '=' :: rest := by
  induction ks with
  | nil => simp [List.dropWhile]
  | cons c cs ih =>
    have hc : ¬ c = '=' := fun h => hk (h ▸ List.mem_cons_self c cs)
    have hcs : '=' ∉ cs := fun h => hk (List.mem_cons_of_mem c h)
    rw [List.cons_append, List.dropWhile_cons, if_pos (by simp [hc]), ih hcs]

theorem takeWhileNe_all {vs : List Char} (hv : '=' ∉ vs) :
    vs.takeWhile (fun c => !(c = '=' : Bool)) = vs := by
  induction vs with
  | nil => rfl
  | cons c cs ih =>
    have hc : ¬ c = '=' := fun h => hv (h ▸ List.mem_cons_self c cs)
    have hcs : '=' ∉ cs := fun h => hv (List.mem_cons_of_mem c h)
    rw [List.takeWhile_cons, if_pos (by simp [hc]), ih hcs]

theorem secondEqField_key {k v : String} (hk : '=' ∉ k.toList) (hv : '=' ∉ v.toList) :
    secondEqField (k ++ "=" ++ v) = v := by
  unfold secondEqField
  have h1 : (k ++ "=" ++ v).toList = k.toList ++ '=' :: v.toList := by
    rw [toList_append, keyEq_toList]
    simp
  simp only [decide_not]
  rw [h1, dropWhileNe_key hk, List.drop_succ_cons, List.drop_zero, takeWhileNe_all hv,
    toList_asString]

theorem lpLine_starts (v : String) :
    strStartsWith (lpLine v) "WAYBAR_LAYOUT_PATH=" = true := by
  rw [lpLine_eq, key_split_LP]
  exact strStartsWith_key _ _

theorem navCurrent_any {st : List String} {cur : String} (h : navCurrent st = some cur) :
    st.any (fun l => strStartsWith l "WAYBAR_LAYOUT_PATH=") = true := by
  unfold navCurrent at h
  cases hf : st.find? (fun l => strStartsWith l "WAYBAR_LAYOUT_PATH=") with
  | none => rw [hf] at h; exact absurd h (by simp)
  | some l =>
    exact List.any_eq_true.mpr ⟨l, List.mem_of_find?_eq_some hf,
      List.find?_some (p := fun l => strStartsWith l "WAYBAR_LAYOUT_PATH=") hf⟩

theorem navCurrent_switch (st : List String) (v s : String)
    (hany : st.any (fun l => strStartsWith l "WAYBAR_LAYOUT_PATH=") = true) :
    navCurrent (st.map (fun l =>
      if strStartsWith l "WAYBAR_LAYOUT_PATH=" then lpLine v
      else if strStartsWith l "WAYBAR_STYLE_PATH=" then spLine s
      else l)) = some (pyStrip (secondEqField (lpLine v))) := by
  induction st with
  | nil => simp at hany
  | cons h t ih =>
    by_cases hph : strStartsWith h "WAYBAR_LAYOUT_PATH=" = true
    · rw [List.map_cons, if_pos hph]
      unfold navCurrent
      rw [@List.find?_cons_of_pos String (fun l => strStartsWith l "WAYBAR_LAYOUT_PATH=")
        (lpLine v) _ (lpLine_starts v)]
      rfl
    · have hph' : strStartsWith h "WAYBAR_LAYOUT_PATH=" = false :=
        Bool.eq_false_iff.mpr hph
      have ht : t.any (fun l => strStartsWith l "WAYBAR_LAYOUT_PATH=") = true := by
        simp only [List.any_cons, hph', Bool.false_or] at hany
        exact hany
      rw [List.map_cons, if_neg hph]
      by_cases hsp : strStartsWith h "WAYBAR_STYLE_PATH=" = true
      · rw [if_pos hsp]
        have hskip : strStartsWith (spLine s) "WAYBAR_LAYOUT_PATH=" = false := by
          rw [key_split_LP, spLine_eq]
          exact strStartsWith_line_ne lpKey_noEq spKey_noEq (by decide)
            (strStartsWith_key _ _)
        unfold navCurrent
        rw [@List.find?_cons_of_neg String (fun l => strStartsWith l "WAYBAR_LAYOUT_PATH=")
          (spLine s) _ (by simp [hskip])]
        exact ih ht
      · rw [if_neg hsp]
        unfold navCurrent
        rw [@List.find?_cons_of_neg String (fun l => strStartsWith l "WAYBAR_LAYOUT_PATH=")
          h _ (by simp [hph'])]
        exact ih ht

theorem list_layouts_find_path (nameOf : String → String) (fs : WaybarFS) (tgt : String)
    (hmem : tgt ∈ catalogPaths fs)
    (hnn : ∀ q ∈ catalogPaths fs, nameOf q ≠ tgt) :
    (list_layouts nameOf fs).find? (fun q => tgt == q.1 || tgt == q.2.1) =
      some (tgt, nameOf tgt, resolve_style_path fs.styleDirs tgt) := by
  unfold list_layouts
  have key : ∀ L : List String, tgt ∈ L → (∀ q ∈ L, nameOf q ≠ tgt) →
      (L.map (fun p => (p, nameOf p, resolve_style_path fs.styleDirs p))).find?
        (fun q => tgt == q.1 || tgt == q.2.1) =
        some (tgt, nameOf tgt, resolve_style_path fs.styleDirs tgt) := by
    intro L
    induction L with
    | nil => intro h _; exact absurd h (List.not_mem_nil tgt)
    | cons p ps ih =>
      intro hm hn
      by_cases hp : p = tgt
      · subst hp
        rw [List.map_cons, List.find?_cons_of_pos _ (by simp)]
      · have hn1 : (tgt == p) = false := by
          simp only [beq_eq_false_iff_ne, ne_eq]
          exact fun he => hp he.symm
        have hn2 : (tgt == nameOf p) = false := by
          simp only [beq_eq_false_iff_ne, ne_eq]
          exact fun he => hn p (List.mem_cons_self p ps) he.symm
        rw [List.map_cons, List.find?_cons_of_neg _ (by simp [hn1, hn2])]
        have hm' : tgt ∈ ps := by
          rcases List.mem_cons.mp hm with he | h
          · exact absurd he.symm hp
          · exact h
        exact ih hm' (fun q hq => hn q (List.mem_cons_of_mem p hq))
  exact key (catalogPaths fs) hmem hnn

theorem nav_step_spec (nameOf : String → String) (next? : Bool) (fs : WaybarFS)
    (hwf : WfFS fs)
    (hnn : ∀ p ∈ catalogPaths fs, ∀ q ∈ catalogPaths fs, nameOf q ≠ p)
    (st : List String) (hst : fs.state = some st) (cur : String)
    (hcur : navCurrent st = some cur) (hmem : cur ∈ catalogPaths fs) (j : Nat)
    (hj : j = if next? then ((catalogPaths fs).indexOf cur + 1) % (catalogPaths fs).length
          else ((catalogPaths fs).indexOf cur + (catalogPaths fs).length - 1) %
            (catalogPaths fs).length) :
    (navStep nameOf next? fs).layouts = fs.layouts ∧
    (navStep nameOf next? fs).styleDirs = fs.styleDirs ∧
    activeLayout (navStep nameOf next? fs) = some ((catalogPaths fs).getD j "") ∧
    ∃ st', (navStep nameOf next? fs).state = some st' ∧
      navCurrent st' = some ((catalogPaths fs).getD j "") := by
  have hnpos : 0 < (catalogPaths fs).length :=
    List.length_pos.mpr (List.ne_nil_of_mem hmem)
  have hjlt : j < (catalogPaths fs).length := by
    rw [hj]
    cases next? <;> exact Nat.mod_lt _ hnpos
  have htgt_eq : (catalogPaths fs).getD j "" = (catalogPaths fs)[j] :=
    List.getD_eq_getElem _ "" hjlt
  have htgt_mem : (catalogPaths fs).getD j "" ∈ catalogPaths fs := by
    rw [htgt_eq]
    exact List.getElem_mem hjlt
  obtain ⟨hw1, hw2, hw3, _⟩ := wf_path hwf (pathExists_of_mem_catalog htgt_mem)
  have hcurne : cur ≠ "" := (wf_path hwf (pathExists_of_mem_catalog hmem)).2.1
  have hcont : (catalogPaths fs).contains cur = true := List.elem_eq_true_of_mem hmem
  have hfind := list_layouts_find_path nameOf fs ((catalogPaths fs).getD j "") htgt_mem
    (fun q hq => hnn ((catalogPaths fs).getD j "") htgt_mem q hq)
  have hnav : handle_layout_navigation nameOf next? fs =
      set_layout nameOf ((catalogPaths fs).getD j "") fs := by
    cases next? with
    | true =>
      simp only [handle_layout_navigation, hst, hcur, if_neg hcurne, hcont, navGo, hj]
      simp
    | false =>
      simp only [handle_layout_navigation, hst, hcur, if_neg hcurne, hcont, navGo, hj]
      simp
  have hsl : set_layout nameOf ((catalogPaths fs).getD j "") fs = some
      { fs with
        state := some (st.map (fun l =>
                    if strStartsWith l "WAYBAR_LAYOUT_PATH=" then
                      lpLine ((catalogPaths fs).getD j "")
                    else if strStartsWith l "WAYBAR_STYLE_PATH=" then
                      spLine (resolve_style_path fs.styleDirs ((catalogPaths fs).getD j ""))
                    else l)),
        config := some (contentOf fs ((catalogPaths fs).getD j "")) } := by
    simp only [set_layout, hst, hfind]
  have hstep : navStep nameOf next? fs =
      { fs with
        state := some (st.map (fun l =>
                    if strStartsWith l "WAYBAR_LAYOUT_PATH=" then
                      lpLine ((catalogPaths fs).getD j "")
                    else if strStartsWith l "WAYBAR_STYLE_PATH=" then
                      spLine (resolve_style_path fs.styleDirs ((catalogPaths fs).getD j ""))
                    else l)),
        config := some (contentOf fs ((catalogPaths fs).getD j "")) } := by
    unfold navStep
    rw [hnav, hsl]
    rfl
  have hveq : '=' ∉ ((catalogPaths fs).getD j "").toList := by
    intro hm
    have h1 : ((catalogPaths fs).getD j "").toList.contains '=' = true :=
      List.elem_eq_true_of_mem hm
    rw [hw3] at h1
    exact absurd h1 (by simp)
  have hact : pyStrip (secondEqField (lpLine ((catalogPaths fs).getD j ""))) =
      (catalogPaths fs).getD j "" := by
    rw [lpLine_eq, secondEqField_key lpKey_noEq hveq, hw1]
  have hnc := navCurrent_switch st ((catalogPaths fs).getD j "")
    (resolve_style_path fs.styleDirs ((catalogPaths fs).getD j ""))
    (navCurrent_any hcur)
  refine ⟨by rw [hstep], by rw [hstep], ?_, ?_⟩
  · rw [hstep]
    show navCurrent (st.map (fun l =>
      if strStartsWith l "WAYBAR_LAYOUT_PATH=" then lpLine ((catalogPaths fs).getD j "")
      else if strStartsWith l "WAYBAR_STYLE_PATH=" then
        spLine (resolve_style_path fs.styleDirs ((catalogPaths fs).getD j ""))
      else l)) = some ((catalogPaths fs).getD j "")
    rw [hnc, hact]
  · refine ⟨_, by rw [hstep], ?_⟩
    rw [hnc, hact]

theorem nav_iter (nameOf : String → String) (fs : WaybarFS)
    (hwf : WfFS fs)
    (hnn : ∀ p ∈ catalogPaths fs, ∀ q ∈ catalogPaths fs, nameOf q ≠ p)
    (hnd : (catalogPaths fs).Nodup)
    (st : List String) (hst : fs.state = some st) (cur : String)
    (hcur : navCurrent st = some cur) (hmem : cur ∈ catalogPaths fs) :
    ∀ k : Nat,
      (Nat.iterate (navStep nameOf true) k fs).layouts = fs.layouts ∧
      ∃ st', (Nat.iterate (navStep nameOf true) k fs).state = some st' ∧
        navCurrent st' = some ((catalogPaths fs).getD
          (((catalogPaths fs).indexOf cur + k) % (catalogPaths fs).length) "") := by
  have hnpos : 0 < (catalogPaths fs).length :=
    List.length_pos.mpr (List.ne_nil_of_mem hmem)
  have hi0 : (catalogPaths fs).indexOf cur < (catalogPaths fs).length :=
    List.indexOf_lt_length.mpr hmem
  intro k
  induction k with
  | zero =>
    refine ⟨rfl, st, hst, ?_⟩
    rw [Nat.add_zero, Nat.mod_eq_of_lt hi0, List.getD_eq_getElem _ "" hi0,
      List.getElem_indexOf hi0]
    exact hcur
  | succ k ih =>
    obtain ⟨hlay_k, st_k, hst_k, hnc_k⟩ := ih
    have hwf_g : WfFS (Nat.iterate (navStep nameOf true) k fs) := WfFS_congr hlay_k hwf
    have hcat_g : catalogPaths (Nat.iterate (navStep nameOf true) k fs) =
        catalogPaths fs := catalogPaths_congr hlay_k
    have hnn_g : ∀ p ∈ catalogPaths (Nat.iterate (navStep nameOf true) k fs),
        ∀ q ∈ catalogPaths (Nat.iterate (navStep nameOf true) k fs), nameOf q ≠ p := by
      rw [hcat_g]
      exact hnn
    have hklt : ((catalogPaths fs).indexOf cur + k) % (catalogPaths fs).length <
        (catalogPaths fs).length := Nat.mod_lt _ hnpos
    have hck_eq : (catalogPaths fs).getD
        (((catalogPaths fs).indexOf cur + k) % (catalogPaths fs).length) "" =
        (catalogPaths fs)[((catalogPaths fs).indexOf cur + k) %
          (catalogPaths fs).length] := List.getD_eq_getElem _ "" hklt
    have hmem_k : (catalogPaths fs).getD
        (((catalogPaths fs).indexOf cur + k) % (catalogPaths fs).length) "" ∈
        catalogPaths (Nat.iterate (navStep nameOf true) k fs) := by
      rw [hcat_g, hck_eq]
      exact List.getElem_mem hklt
    have hidx : (catalogPaths (Nat.iterate (navStep nameOf true) k fs)).indexOf
        ((catalogPaths fs).getD
          (((catalogPaths fs).indexOf cur + k) % (catalogPaths fs).length) "") =
        ((catalogPaths fs).indexOf cur + k) % (catalogPaths fs).length := by
      rw [hcat_g, hck_eq]
      exact List.indexOf_getElem hnd _ hklt
    have hj : ((catalogPaths fs).indexOf cur + (k + 1)) % (catalogPaths fs).length =
        ((catalogPaths (Nat.iterate (navStep nameOf true) k fs)).indexOf
            ((catalogPaths fs).getD
              (((catalogPaths fs).indexOf cur + k) % (catalogPaths fs).length) "") + 1) %
          (catalogPaths (Nat.iterate (navStep nameOf true) k fs)).length := by
      rw [hidx, hcat_g, Nat.mod_add_mod, Nat.add_assoc]
    obtain ⟨hlay', _, _, st', hst', hnc'⟩ := nav_step_spec nameOf true
      (Nat.iterate (navStep nameOf true) k fs) hwf_g hnn_g st_k hst_k
      ((catalogPaths fs).getD
        (((catalogPaths fs).indexOf cur + k) % (catalogPaths fs).length) "")
      hnc_k hmem_k
      (((catalogPaths fs).indexOf cur + (k + 1)) % (catalogPaths fs).length)
      (by rw [if_pos rfl]; exact hj)
    rw [Function.iterate_succ_apply' (navStep nameOf true) k fs]
    refine ⟨by rw [hlay', hlay_k], st', hst', ?_⟩
    rw [hnc', hcat_g]

/-- C3: on a duplicate-free catalog containing the active layout (and with
display names distinct from every path), the next operation moves the active
layout to sorted index (i + 1) mod N and the previous operation to index
(i + N - 1) mod N; applying next N times returns to the original layout, and
previous followed by next leaves the active layout unchanged. -/
theorem C3_navigation_wraparound (nameOf : String → String) (fs : WaybarFS)
    (hwf : WfFS fs) (hnd : (catalogPaths fs).Nodup)
    (hnn : ∀ p ∈ catalogPaths fs, ∀ q ∈ catalogPaths fs, nameOf q ≠ p)
    (st : List String) (hst : fs.state = some st) (cur : String)
    (hcur : navCurrent st = some cur) (hmem : cur ∈ catalogPaths fs) :
    activeLayout (navStep nameOf true fs) =
      some ((catalogPaths fs).getD
        (((catalogPaths fs).indexOf cur + 1) % (catalogPaths fs).length) "") ∧
    activeLayout (navStep nameOf false fs) =
      some ((catalogPaths fs).getD
        (((catalogPaths fs).indexOf cur + (catalogPaths fs).length - 1) %
          (catalogPaths fs).length) "") ∧
    activeLayout (Nat.iterate (navStep nameOf true) (catalogPaths fs).length fs) =
      some cur ∧
    activeLayout (navStep nameOf true (navStep nameOf false fs)) = some cur := by
  have hnpos : 0 < (catalogPaths fs).length :=
    List.length_pos.mpr (List.ne_nil_of_mem hmem)
  have hi0 : (catalogPaths fs).indexOf cur < (catalogPaths fs).length :=
    List.indexOf_lt_length.mpr hmem
  have hiter := nav_iter nameOf fs hwf hnn hnd st hst cur hcur hmem
    (catalogPaths fs).length
  obtain ⟨hlayN, stN, hstN, hncN⟩ := hiter
  have hnext := nav_step_spec nameOf true fs hwf hnn st hst cur hcur hmem
    (((catalogPaths fs).indexOf cur + 1) % (catalogPaths fs).length)
    (if_pos rfl).symm
  have hprev := nav_step_spec nameOf false fs hwf hnn st hst cur hcur hmem
    (((catalogPaths fs).indexOf cur + (catalogPaths fs).length - 1) %
      (catalogPaths fs).length)
    (if_neg (by simp)).symm
  refine ⟨hnext.2.2.1, hprev.2.2.1, ?_, ?_⟩
  · have hfix : ((catalogPaths fs).indexOf cur + (catalogPaths fs).length) %
        (catalogPaths fs).length = (catalogPaths fs).indexOf cur := by
      rw [Nat.add_mod_right]
      exact Nat.mod_eq_of_lt hi0
    simp only [activeLayout, hstN]
    rw [hncN, hfix, List.getD_eq_getElem _ "" hi0, List.getElem_indexOf hi0]
  · obtain ⟨hlay1, _, _, st1, hst1, hnc1⟩ := hprev
    have hwf1 : WfFS (navStep nameOf false fs) := WfFS_congr hlay1 hwf
    have hcat1 : catalogPaths (navStep nameOf false fs) = catalogPaths fs :=
      catalogPaths_congr hlay1
    have hnn1 : ∀ p ∈ catalogPaths (navStep nameOf false fs),
        ∀ q ∈ catalogPaths (navStep nameOf false fs), nameOf q ≠ p := by
      rw [hcat1]
      exact hnn
    have hjpl : ((catalogPaths fs).indexOf cur + (catalogPaths fs).length - 1) %
        (catalogPaths fs).length < (catalogPaths fs).length := Nat.mod_lt _ hnpos
    have hc1_eq : (catalogPaths fs).getD
        (((catalogPaths fs).indexOf cur + (catalogPaths fs).length - 1) %
          (catalogPaths fs).length) "" =
        (catalogPaths fs)[((catalogPaths fs).indexOf cur + (catalogPaths fs).length - 1) %
          (catalogPaths fs).length] := List.getD_eq_getElem _ "" hjpl
    have hmem1 : (catalogPaths fs).getD
        (((catalogPaths fs).indexOf cur + (catalogPaths fs).length - 1) %
          (catalogPaths fs).length) "" ∈ catalogPaths (navStep nameOf false fs) := by
      rw [hcat1, hc1_eq]
      exact List.getElem_mem hjpl
    have hidx1 : (catalogPaths (navStep nameOf false fs)).indexOf
        ((catalogPaths fs).getD
          (((catalogPaths fs).indexOf cur + (catalogPaths fs).length - 1) %
            (catalogPaths fs).length) "") =
        ((catalogPaths fs).indexOf cur + (catalogPaths fs).length - 1) %
          (catalogPaths fs).length := by
      rw [hcat1, hc1_eq]
      exact List.indexOf_getElem hnd _ hjpl
    have e2 : (catalogPaths fs).indexOf cur + (catalogPaths fs).length - 1 + 1 =
        (catalogPaths fs).indexOf cur + (catalogPaths fs).length :=
      Nat.sub_add_cancel (le_trans hnpos (Nat.le_add_left _ _))
    have hj2 : (catalogPaths fs).indexOf cur =
        ((catalogPaths (navStep nameOf false fs)).indexOf
            ((catalogPaths fs).getD
              (((catalogPaths fs).indexOf cur + (catalogPaths fs).length - 1) %
                (catalogPaths fs).length) "") + 1) %
          (catalogPaths (navStep nameOf false fs)).length := by
      rw [hidx1, hcat1, Nat.mod_add_mod, e2, Nat.add_mod_right]
      exact (Nat.mod_eq_of_lt hi0).symm
    have hstep2 := nav_step_spec nameOf true (navStep nameOf false fs) hwf1 hnn1
      st1 hst1
      ((catalogPaths fs).getD
        (((catalogPaths fs).indexOf cur + (catalogPaths fs).length - 1) %
          (catalogPaths fs).length) "")
      hnc1 hmem1 ((catalogPaths fs).indexOf cur)
      (by rw [if_pos rfl]; exact hj2)
    rw [hstep2.2.2.1, hcat1, List.getD_eq_getElem _ "" hi0, List.getElem_indexOf hi0]

/-- Witness for C3_navigation_wraparound on the two-layout fixture. -/
theorem C3_navigation_wraparound_witness :
    (WfFS waybarFixtureE ∧ (catalogPaths waybarFixtureE).Nodup ∧
     (∀ p ∈ catalogPaths waybarFixtureE, ∀ q ∈ catalogPaths waybarFixtureE,
        basenameNoExt q ≠ p) ∧
     navCurrent ["WAYBAR_LAYOUT_PATH=L/a.jsonc", "WAYBAR_LAYOUT_NAME=a",
       "WAYBAR_STYLE_PATH=S/defaults.css"] = some "L/a.jsonc" ∧
     "L/a.jsonc" ∈ catalogPaths waybarFixtureE) ∧
    (activeLayout (navStep basenameNoExt true waybarFixtureE) =
       some ((catalogPaths waybarFixtureE).getD
         (((catalogPaths waybarFixtureE).indexOf "L/a.jsonc" + 1) %
           (catalogPaths waybarFixtureE).length) "") ∧
     activeLayout (navStep basenameNoExt false waybarFixtureE) =
       some ((catalogPaths waybarFixtureE).getD
         (((catalogPaths waybarFixtureE).indexOf "L/a.jsonc" +
             (catalogPaths waybarFixtureE).length - 1) %
           (catalogPaths waybarFixtureE).length) "") ∧
     activeLayout (Nat.iterate (navStep basenameNoExt true)
         (catalogPaths waybarFixtureE).length waybarFixtureE) = some "L/a.jsonc" ∧
     activeLayout (navStep basenameNoExt true (navStep basenameNoExt false
         waybarFixtureE)) = some "L/a.jsonc") :=
  ⟨⟨by decide, by decide, by decide, by decide, by decide⟩,
   C3_navigation_wraparound basenameNoExt waybarFixtureE (by decide) (by decide)
     (by decide) _ rfl "L/a.jsonc" (by decide) (by decide)⟩
